import Mathlib

/-!
Verification of the zenvo environment-drift engine (Rust) against its
natural-language specification.  The Rust sources are shallowly embedded:
pure string-processing functions are translated to Lean functions over
`String` (with byte-level Rust helpers recreated on `List Char`; all inputs
exercised here are ASCII, where Rust byte indices and char indices agree),
filesystem and process effects are passed in explicitly as data, and
fallible code returns `Option` or `Except`.
-/

/-! ## Rust string primitives, recreated on `List Char` -/

/-- Single-quote character, used to build message strings. -/
def sqc : Char := Char.ofNat 39

/-- Single-quote as a one-character string. -/
def squo : String := String.mk [sqc]

/-- Rust `str::starts_with` on char lists. -/
def listStartsWith : List Char → List Char → Bool
  | _, [] => true
  | [], _ :: _ => false
  | a :: s, b :: p => a = b && listStartsWith s p

/-- Index of the first occurrence of pattern `p` in `s`, starting the count
at `i`; models the position part of Rust `str::find` for string patterns. -/
def findSubFrom (p : List Char) : List Char → Nat → Option Nat
  | [], i => if p = [] then some i else none
  | c :: t, i => if listStartsWith (c :: t) p then some i else findSubFrom p t (i + 1)

/-- Rust `str::find` for a string pattern. -/
def findSub (s p : List Char) : Option Nat := findSubFrom p s 0

/-- Rust `str::contains` for a string pattern. -/
def containsSub (s p : List Char) : Bool := (findSub s p).isSome

/-- Rust `str::split` with a string pattern (non-overlapping occurrences),
driven by a fuel argument for termination; callers pass `s.length + 1`. -/
def splitOnListAux (p : List Char) : Nat → List Char → List (List Char)
  | 0, s => [s]
  | fuel + 1, s =>
    match findSub s p with
    | none => [s]
    | some i => s.take i :: splitOnListAux p fuel (s.drop (i + p.length))

/-- Rust `str::split` with a (nonempty) string pattern. -/
def splitOnList (s p : List Char) : List (List Char) :=
  splitOnListAux p (s.length + 1) s

/-- Rust `str::split` with a char pattern. -/
def splitChar (c : Char) : List Char → List (List Char)
  | [] => [[]]
  | a :: t =>
    match splitChar c t with
    | [] => [[a]]
    | h :: rt => if a = c then [] :: h :: rt else (a :: h) :: rt

/-- Index of the last occurrence of a char, accumulator form. -/
def lastIdxOfAux (c : Char) : List Char → Nat → Option Nat → Option Nat
  | [], _, acc => acc
  | a :: t, i, acc => lastIdxOfAux c t (i + 1) (if a = c then some i else acc)

/-- Index of the last occurrence of a char. -/
def lastIdxOf (c : Char) (s : List Char) : Option Nat := lastIdxOfAux c s 0 none

/-- Rust `str::rsplit_once` with a char pattern: split at the last occurrence. -/
def rsplitOnceChar (c : Char) (s : List Char) : Option (List Char × List Char) :=
  match lastIdxOf c s with
  | none => none
  | some i => some (s.take i, s.drop (i + 1))

/-- ASCII slice of Rust `char::is_whitespace`; every input exercised by the
embedded code is ASCII. -/
def rustIsWhitespace (c : Char) : Bool :=
  c = ' ' || c = '\t' || c = '\n' || c = '\x0d' || c = '\x0b' || c = '\x0c'

/-- Rust `str::trim_start`. -/
def trimStartList (s : List Char) : List Char := s.dropWhile rustIsWhitespace

/-- Rust `str::trim`. -/
def trimList (s : List Char) : List Char :=
  ((s.dropWhile rustIsWhitespace).reverse.dropWhile rustIsWhitespace).reverse

/-- Rust `str::trim_start_matches` with a char pattern (strips repeatedly). -/
def trimStartMatchesChar (c : Char) (s : List Char) : List Char :=
  s.dropWhile (fun a => a = c)

/-- Rust `str::trim_end_matches` with a char pattern (strips repeatedly). -/
def trimEndMatchesChar (c : Char) (s : List Char) : List Char :=
  (s.reverse.dropWhile (fun a => a = c)).reverse

/-- Rust `str::trim_matches` with a char pattern (both ends, repeatedly). -/
def trimMatchesChar (c : Char) (s : List Char) : List Char :=
  trimEndMatchesChar c (trimStartMatchesChar c s)

/-- Rust `str::trim_start_matches` with a string pattern (strips repeated
leading occurrences); fuel-driven for termination. -/
def trimStartMatchesListAux (p : List Char) : Nat → List Char → List Char
  | 0, s => s
  | fuel + 1, s =>
    if p ≠ [] ∧ listStartsWith s p then trimStartMatchesListAux p fuel (s.drop p.length)
    else s

/-- Rust `str::trim_start_matches` with a (nonempty) string pattern. -/
def trimStartMatchesList (s p : List Char) : List Char :=
  trimStartMatchesListAux p (s.length + 1) s

/-- Rust `str::lines`: split on newline, drop one trailing empty piece, and
strip a trailing carriage return from each line. -/
def rustLinesList (s : List Char) : List (List Char) :=
  if s = [] then []
  else
    let ps := splitChar '\n' s
    let ps := if ps.getLast? = some [] then ps.dropLast else ps
    ps.map (trimEndMatchesChar '\x0d')

/-- Rust `str::split_whitespace` (nonempty runs between whitespace). -/
def splitWhitespaceList (s : List Char) : List (List Char) :=
  (splitChar ' ' (s.map (fun c => if rustIsWhitespace c then ' ' else c))).filter
    (fun p => p ≠ [])

/-- Rust `str::to_lowercase`, ASCII slice. -/
def toLowerList (s : List Char) : List Char := s.map Char.toLower

/-! String-level wrappers used by the embedded source functions. -/

/-- Rust `str::contains` on `String`. -/
def scontains (s p : String) : Bool := containsSub s.data p.data

/-- Rust `str::starts_with` on `String`. -/
def sstarts (s p : String) : Bool := listStartsWith s.data p.data

/-- Rust `str::trim` on `String`. -/
def strim (s : String) : String := String.mk (trimList s.data)

/-- Rust `str::split` collected, on `String`. -/
def ssplit (s p : String) : List String := (splitOnList s.data p.data).map String.mk

/-- Rust `str::split` with a char, collected, on `String`. -/
def ssplitChar (c : Char) (s : String) : List String :=
  (splitChar c s.data).map String.mk

/-- Rust `str::rsplit_once` with a char, on `String`. -/
def srsplitOnce (c : Char) (s : String) : Option (String × String) :=
  (rsplitOnceChar c s.data).map (fun pr => (String.mk pr.1, String.mk pr.2))

/-- Rust `str::lines` collected, on `String`. -/
def slines (s : String) : List String := (rustLinesList s.data).map String.mk

/-- Rust `str::split_whitespace` collected, on `String`. -/
def ssplitWhitespace (s : String) : List String :=
  (splitWhitespaceList s.data).map String.mk

/-- Rust `str::is_empty` on `String`. -/
def sisEmpty (s : String) : Bool := s.data = []

/-! ## Snapshot Store: schema version validation (src/lockfile/mod.rs) -/

/-- Value of a nonempty digit run, else `none`; accumulator form. -/
def digitsValAux : List Char → Nat → Option Nat
  | [], acc => some acc
  | c :: t, acc => if c.isDigit then digitsValAux t (acc * 10 + (c.toNat - 48)) else none

/-- Value of a nonempty all-digit char list, else `none`. -/
def digitsVal : List Char → Option Nat
  | [] => none
  | c :: t => digitsValAux (c :: t) 0

/-- Rust `u32::from_str`: optional leading plus sign, then a nonempty digit
run whose value fits in 32 bits. -/
def parseU32 (s : String) : Option Nat :=
  match s.data with
  | [] => none
  | c :: t =>
    let ds := if c = '+' then t else c :: t
    match digitsVal ds with
    | none => none
    | some n => if n < 4294967296 then some n else none

/-- Schema version constant from src/lockfile/mod.rs. -/
def CURRENT_SCHEMA_VERSION : String := "1.0"

/-- Minimum supported schema version constant from src/lockfile/mod.rs. -/
def MIN_SUPPORTED_SCHEMA_VERSION : String := "1.0"

/-- `SchemaVersionStatus` from src/lockfile/mod.rs; constructors carry the
same string payloads as the Rust enum fields. -/
inductive SchemaVersionStatus
  | Current : SchemaVersionStatus
  | Supported (version : String) : SchemaVersionStatus
  | TooOld (version minimum : String) : SchemaVersionStatus
  | TooNew (version current : String) : SchemaVersionStatus
  | Invalid (reason : String) : SchemaVersionStatus
deriving DecidableEq, Repr

/-- The `parse_version` closure inside `validate_schema_version`: split on
a dot, require exactly two components, parse each as `u32`. -/
def parse_version (v : String) : Option (Nat × Nat) :=
  match ssplitChar '.' v with
  | [a, b] =>
    match parseU32 a, parseU32 b with
    | some ma, some mb => some (ma, mb)
    | _, _ => none
  | _ => none

/-- Rust tuple order on `(u32, u32)` (lexicographic), used by the `<`
comparison in `validate_schema_version`. -/
def pairLt (x y : Nat × Nat) : Bool :=
  x.1 < y.1 || (x.1 = y.1 && x.2 < y.2)

/-- `validate_schema_version` from src/lockfile/mod.rs. -/
def validate_schema_version (version : String) : SchemaVersionStatus :=
  match parse_version CURRENT_SCHEMA_VERSION with
  | none => SchemaVersionStatus.Invalid "Internal error: invalid current schema version"
  | some current =>
    match parse_version MIN_SUPPORTED_SCHEMA_VERSION with
    | none => SchemaVersionStatus.Invalid "Internal error: invalid minimum schema version"
    | some minimum =>
      match parse_version version with
      | none =>
        SchemaVersionStatus.Invalid
          ("Invalid schema version format: " ++ squo ++ version ++ squo ++ " (expected X.Y)")
      | some fv =>
        if fv.1 > current.1 then SchemaVersionStatus.TooNew version CURRENT_SCHEMA_VERSION
        else if pairLt fv minimum then
          SchemaVersionStatus.TooOld version MIN_SUPPORTED_SCHEMA_VERSION
        else if fv = current then SchemaVersionStatus.Current
        else SchemaVersionStatus.Supported version

/-! ## Toolchain checks: engines compliance (src/checks/toolchain.rs)

The Rust code uses the external `semver` crate only through
`parse_version_lenient`, which first strips any pre-release or build suffix
via `normalize_node_version`; a successful parse therefore never carries a
pre-release, so `semver::Version` is modelled by its numeric triple and its
order by the lexicographic order on that triple. -/

/-- Numeric triple model of `semver::Version`. -/
structure Version where
  major : Nat
  minor : Nat
  patch : Nat
deriving DecidableEq, Repr

/-- Strict order on versions (the semver order restricted to versions
without pre-release identifiers). -/
def Version.ltb (a b : Version) : Bool :=
  a.major < b.major
    || (a.major = b.major
        && (a.minor < b.minor || (a.minor = b.minor && a.patch < b.patch)))

/-- Non-strict order on versions. -/
def Version.leb (a b : Version) : Bool := Version.ltb a b || a = b

/-- Semver numeric identifier: nonempty digits, no leading zero except the
single digit zero, value within `u64`. -/
def numIdent (s : String) : Option Nat :=
  match s.data with
  | [] => none
  | c :: t =>
    if c = '0' ∧ t ≠ [] then none
    else
      match digitsVal (c :: t) with
      | none => none
      | some n => if n < 18446744073709551616 then some n else none

/-- `semver::Version::parse` on the strings produced by
`normalize_node_version` (never carrying pre-release or build parts):
exactly three dot-separated numeric identifiers. -/
def semverParse (s : String) : Option Version :=
  match ssplitChar '.' s with
  | [a, b, c] =>
    match numIdent a, numIdent b, numIdent c with
    | some ma, some mb, some mc => some ⟨ma, mb, mc⟩
    | _, _, _ => none
  | _ => none

/-- `is_valid_semver_base` from src/checks/toolchain.rs. -/
def is_valid_semver_base (s : String) : Bool :=
  let parts := ssplitChar '.' s
  if parts.length < 2 || parts.length > 3 then false
  else parts.all (fun p => (parseU32 p).isSome)

/-- The fixed suffix list inside `normalize_node_version`. -/
def nodeVersionSuffixes : List String :=
  ["-nightly", "-canary", "-alpha", "-beta", "-rc", "-pre", "-dev", "-test"]

/-- `normalize_node_version` from src/checks/toolchain.rs: trim, strip
leading `v`, then strip a recognized or parseable-base hyphen suffix, or a
plus-sign build-metadata suffix. -/
def normalize_node_version (version : String) : String × Bool :=
  let v := trimStartMatchesChar 'v' (trimList version.data)
  match findSub v ['-'] with
  | some hyphen_idx =>
    let suffix_part := toLowerList (v.drop hyphen_idx)
    let base := v.take hyphen_idx
    if nodeVersionSuffixes.any (fun suf => listStartsWith suffix_part suf.data) then
      (String.mk base, true)
    else if is_valid_semver_base (String.mk base) then (String.mk base, true)
    else
      match findSub v ['+'] with
      | some plus_idx => (String.mk (v.take plus_idx), true)
      | none => (String.mk v, false)
  | none =>
    match findSub v ['+'] with
    | some plus_idx => (String.mk (v.take plus_idx), true)
    | none => (String.mk v, false)

/-- `parse_version_lenient` from src/checks/toolchain.rs. -/
def parse_version_lenient (version : String) : Option Version :=
  let normalized := (normalize_node_version version).1
  match semverParse normalized with
  | some v => some v
  | none =>
    let parts := ssplitChar '.' normalized
    if parts.length = 2 then semverParse (normalized ++ ".0")
    else if parts.length = 1 then semverParse (normalized ++ ".0.0")
    else none

/-- Fuel-driven body of `check_semver_constraint` from
src/checks/toolchain.rs; recursion happens only on strict substrings, so
the wrapper's fuel of `length + 1` is never exhausted. -/
def check_semver_constraint_fuel : Nat → String → Version → Option Bool
  | 0, _, _ => none
  | fuel + 1, constraint, version =>
    let c := strim constraint
    if sstarts c ">=" then
      (parse_version_lenient (strim (String.mk (trimStartMatchesList c.data [ '>', '=' ])))).map
        (fun min => Version.leb min version)
    else if sstarts c ">" then
      (parse_version_lenient (strim (String.mk (trimStartMatchesChar '>' c.data)))).map
        (fun min => Version.ltb min version)
    else if sstarts c "<=" then
      (parse_version_lenient (strim (String.mk (trimStartMatchesList c.data [ '<', '=' ])))).map
        (fun max => Version.leb version max)
    else if sstarts c "<" then
      (parse_version_lenient (strim (String.mk (trimStartMatchesChar '<' c.data)))).map
        (fun max => Version.ltb version max)
    else if sstarts c "^" then
      (parse_version_lenient (strim (String.mk (trimStartMatchesChar '^' c.data)))).map
        (fun bv => version.major = bv.major && Version.leb bv version)
    else if sstarts c "~" then
      (parse_version_lenient (strim (String.mk (trimStartMatchesChar '~' c.data)))).map
        (fun bv =>
          version.major = bv.major && version.minor = bv.minor && Version.leb bv version)
    else if scontains c "||" then
      let results := (ssplit c "||").map
        (fun p => check_semver_constraint_fuel fuel (strim p) version)
      if results.any (fun r => r = some true) then some true
      else if results.all (fun r => r.isNone) then none
      else some false
    else if scontains c " " then
      let results := (ssplitWhitespace c).map
        (fun p => check_semver_constraint_fuel fuel p version)
      if results.any (fun r => r.isNone) then none
      else some (results.all (fun r => r = some true))
    else if c = "*" || c = "x" || c = "X" then some true
    else
      match parse_version_lenient c with
      | some exact => some (version = exact)
      | none => none

/-- `check_semver_constraint` from src/checks/toolchain.rs. -/
def check_semver_constraint (constraint : String) (version : Version) : Option Bool :=
  check_semver_constraint_fuel (constraint.length + 1) constraint version

/-! ## Findings (src/checks/mod.rs) -/

/-- `CheckSeverity` from src/checks/mod.rs. -/
inductive CheckSeverity
  | Pass
  | Info
  | Warning
  | Error
deriving DecidableEq, Repr

/-- `CheckResult` from src/checks/mod.rs. -/
structure CheckResult where
  name : String
  category : String
  severity : CheckSeverity
  message : String
  suggested_fix : Option String
deriving DecidableEq, Repr

/-- `CheckResult::pass`. -/
def CheckResult.pass (name category : String) : CheckResult :=
  ⟨name, category, CheckSeverity.Pass, "", none⟩

/-- `CheckResult::error`. -/
def CheckResult.error (name category message : String) : CheckResult :=
  ⟨name, category, CheckSeverity.Error, message, none⟩

/-- `CheckResult::warning`. -/
def CheckResult.warning (name category message : String) : CheckResult :=
  ⟨name, category, CheckSeverity.Warning, message, none⟩

/-- `CheckResult::info`. -/
def CheckResult.info (name category message : String) : CheckResult :=
  ⟨name, category, CheckSeverity.Info, message, none⟩

/-- `CheckResult::with_fix`. -/
def CheckResult.with_fix (r : CheckResult) (fix : String) : CheckResult :=
  { r with suggested_fix := some fix }

/-- `check_engines_compliance` from src/checks/toolchain.rs.  The
`engines_node` argument is the result of the manifest projection
`pkg.get("engines")?.as_object()?.get("node")?.as_str()?`: `none` collapses
the early-return paths (unreadable file, invalid JSON, missing field), on
which the Rust function returns `None`. -/
def check_engines_compliance (engines_node : Option String) (node_version : String) :
    Option CheckResult :=
  match engines_node with
  | none => none
  | some node_constraint =>
    match parse_version_lenient node_version with
    | none =>
      some (CheckResult.warning "Engines compliance" "toolchain"
        ("Cannot parse Node version " ++ squo ++ node_version ++ squo
          ++ " for constraint checking"))
    | some current_version =>
      match check_semver_constraint node_constraint current_version with
      | some true => some (CheckResult.pass "Engines compliance" "toolchain")
      | some false =>
        some ((CheckResult.error "Engines compliance" "toolchain"
            ("Node " ++ node_version ++ " does not satisfy engines.node constraint: "
              ++ node_constraint)).with_fix
          ("Install a Node version matching " ++ node_constraint))
      | none =>
        some (CheckResult.warning "Engines compliance" "toolchain"
          ("Unrecognized constraint format " ++ squo ++ node_constraint ++ squo
            ++ ", skipping check"))

/-! ## Repair planner and executor (src/repair/mod.rs) -/

/-- `RepairAction` from src/repair/mod.rs. -/
structure RepairAction where
  description : String
  command : String
  is_safe : Bool
deriving DecidableEq, Repr

/-- `RepairContext` from src/repair/mod.rs. -/
structure RepairContext where
  package_manager : String
  node_version_manager : Option String
  target_node_version : Option String
deriving DecidableEq, Repr

/-- Ambient process facts read inside `issue_to_action_with_context`
(environment variables and compile-time target), passed explicitly. -/
structure OsEnv where
  volta_home : Bool
  fnm_dir : Bool
  fnm_multishell_path : Bool
  nvm_dir : Bool
  is_windows : Bool
  is_macos : Bool
deriving DecidableEq, Repr

/-- `RepairContext::install_command`. -/
def RepairContext.install_command (ctx : RepairContext) : String :=
  match ctx.package_manager with
  | "pnpm" => "pnpm install --frozen-lockfile"
  | "yarn" => "yarn install --frozen-lockfile"
  | "bun" => "bun install --frozen-lockfile"
  | _ => "npm ci"

/-- `RepairContext::install_command_no_frozen`. -/
def RepairContext.install_command_no_frozen (ctx : RepairContext) : String :=
  match ctx.package_manager with
  | "pnpm" => "pnpm install"
  | "yarn" => "yarn install"
  | "bun" => "bun install"
  | _ => "npm install"

/-- `RepairContext::node_switch_command`. -/
def RepairContext.node_switch_command (ctx : RepairContext) (version : String) : String :=
  match ctx.node_version_manager with
  | some "volta" => "volta pin node@" ++ version
  | some "fnm" => "fnm use " ++ version
  | some "nvm" => "nvm use " ++ version
  | _ =>
    "nvm use " ++ version ++ " (or volta pin node@" ++ version ++ " / fnm use "
      ++ version ++ ")"

/-- `RepairContext::clear_cache_commands`. -/
def RepairContext.clear_cache_commands (ctx : RepairContext) : List (String × String) :=
  match ctx.package_manager with
  | "pnpm" => [("Clear pnpm cache", "pnpm store prune")]
  | "yarn" => [("Clear yarn cache", "yarn cache clean")]
  | "bun" => [("Clear bun cache (manual)", "rm -rf ~/.bun/install/cache")]
  | _ => [("Clear npm cache", "npm cache clean --force")]

/-- `extract_target_version` from src/repair/mod.rs. -/
def extract_target_version (message : String) : Option String :=
  if sstarts message "Expected " then (ssplitWhitespace message).get? 1
  else none

/-- `get_lockfile_name` from src/repair/mod.rs. -/
def get_lockfile_name (package_manager : String) : String :=
  match package_manager with
  | "pnpm" => "pnpm-lock.yaml"
  | "yarn" => "yarn.lock"
  | "bun" => "bun.lockb"
  | _ => "package-lock.json"

/-- Rust `str::replace` (all occurrences of a nonempty pattern). -/
def sreplace (s pat rep : String) : String :=
  String.mk (List.intercalate rep.data (splitOnList s.data pat.data))

/-- `issue_to_action_with_context` from src/repair/mod.rs.  The `env`
argument carries the environment-variable and target-platform reads of the
`Node.js accessible` arm. -/
def issue_to_action_with_context (issue : CheckResult) (context : RepairContext)
    (env : OsEnv) : Option RepairAction :=
  match issue.name with
  | "Node version match" =>
    let target_version :=
      ((extract_target_version issue.message).orElse
        (fun _ => context.target_node_version)).getD "<version>"
    some ⟨"Switch Node.js to version " ++ target_version,
      context.node_switch_command target_version, true⟩
  | "Package manager match" =>
    some ⟨"Use correct package manager",
      issue.suggested_fix.getD ("Use " ++ context.package_manager ++ " instead"), true⟩
  | "node_modules exists" =>
    some ⟨"Install dependencies using " ++ context.package_manager,
      context.install_command, true⟩
  | "node_modules in sync" | "node_modules integrity" =>
    some ⟨"Reinstall dependencies using " ++ context.package_manager,
      "rm -rf node_modules && " ++ context.install_command, true⟩
  | "Lockfile exists" =>
    some ⟨"Generate lockfile using " ++ context.package_manager,
      context.install_command_no_frozen, false⟩
  | "Lockfile integrity" | "Lockfile hash match" =>
    some ⟨"Update env.lock to match current lockfile", "zenvo lock", true⟩
  | "Lockfile corrupted" =>
    some ⟨"Regenerate corrupted lockfile using " ++ context.package_manager,
      "rm -f " ++ get_lockfile_name context.package_manager ++ " && "
        ++ context.install_command_no_frozen, false⟩
  | "Single lockfile" =>
    some ⟨"Remove duplicate lockfiles", "Review and remove unused lockfile manually",
      false⟩
  | "npm cache integrity" | "Cache corrupted" =>
    match context.clear_cache_commands with
    | (desc, cmd) :: _ => some ⟨desc, cmd, !(scontains desc "manual")⟩
    | [] => none
  | "TypeScript config" =>
    some ⟨"Initialize TypeScript config",
      match context.package_manager with
      | "pnpm" => "pnpm exec tsc --init"
      | "yarn" => "yarn tsc --init"
      | "bun" => "bun x tsc --init"
      | _ => "npx tsc --init", true⟩
  | "ESLint config" =>
    some ⟨"Initialize ESLint config",
      match context.package_manager with
      | "pnpm" => "pnpm create @eslint/config"
      | "yarn" => "yarn create @eslint/config"
      | "bun" => "bun create @eslint/config"
      | _ => "npm init @eslint/config", false⟩
  | "Corepack available" | "Corepack enabled" =>
    some ⟨"Enable Corepack", "corepack enable", true⟩
  | "Prettier config" =>
    some ⟨"Create Prettier config",
      "echo " ++ squo ++ "\x7b\x7d" ++ squo ++ " > .prettierrc", true⟩
  | "Peer dependencies" =>
    some ⟨"Install missing peer dependencies",
      match context.package_manager with
      | "pnpm" => "pnpm install"
      | "yarn" => "yarn install"
      | "bun" => "bun install"
      | _ => "npm install", true⟩
  | "npm accessible" | "yarn accessible" | "pnpm accessible" | "bun accessible" =>
    let pm := sreplace issue.name " accessible" ""
    some ⟨"Install " ++ pm ++ " package manager",
      match pm with
      | "yarn" => "corepack enable && corepack prepare yarn@stable --activate"
      | "pnpm" => "corepack enable && corepack prepare pnpm@latest --activate"
      | "bun" => "npm install -g bun"
      | _ => "npm is included with Node.js - reinstall Node.js", false⟩
  | "Node.js accessible" =>
    let target_version := context.target_node_version.getD "--lts"
    let major_version := ((ssplitChar '.' target_version).head? ).getD "20"
    let cmd :=
      if env.volta_home then "volta install node@" ++ target_version
      else if env.fnm_dir || env.fnm_multishell_path then "fnm install " ++ target_version
      else if env.nvm_dir then "nvm install " ++ target_version
      else if env.is_windows then "winget install OpenJS.NodeJS.LTS"
      else if env.is_macos then "brew install node@" ++ major_version
      else
        "curl -fsSL https://deb.nodesource.com/setup_" ++ major_version
          ++ ".x | sudo -E bash - && sudo apt-get install -y nodejs"
    let desc :=
      if target_version = "--lts" then "Install Node.js (LTS)"
      else "Install Node.js " ++ target_version
    some ⟨desc, cmd, false⟩
  | _ =>
    match issue.suggested_fix with
    | some fix => some ⟨issue.name, fix, false⟩
    | none => none

/-- Stable insertion step for the planner sort: an element moves past `y`
only when the Rust comparator `b.is_safe.cmp(a.is_safe)` says Greater,
i.e. when `x` is unsafe and `y` is safe. -/
def insertActionBySafety (x : RepairAction) : List RepairAction → List RepairAction
  | [] => [x]
  | y :: ys =>
    if !x.is_safe && y.is_safe then y :: insertActionBySafety x ys
    else x :: y :: ys

/-- Stable sort modelling Rust `Vec::sort_by(|a, b| b.is_safe.cmp(&a.is_safe))`
(Rust sort_by is stable, and a stable sort is unique, so an insertion sort
that never reorders equal keys computes the same list). -/
def sortActionsBySafety : List RepairAction → List RepairAction
  | [] => []
  | x :: xs => insertActionBySafety x (sortActionsBySafety xs)

/-- `generate_repair_plan_with_context` from src/repair/mod.rs (the Rust
function is infallible, so the `Result` wrapper is dropped). -/
def generate_repair_plan_with_context (issues : List CheckResult)
    (context : RepairContext) (env : OsEnv) : List RepairAction :=
  sortActionsBySafety
    (issues.filterMap (fun issue => issue_to_action_with_context issue context env))

/-- Classified outcome of the shell invocation inside `execute_repair`:
exit status plus the two captured streams. -/
structure ExecOutput where
  success : Bool
  stdout : String
  stderr : String
deriving DecidableEq, Repr

/-- The per-line benign-diagnostic test inside `execute_repair`. -/
def benignStderrLine (line : String) : Bool :=
  sisEmpty (strim line) || sstarts line "warning " || sstarts line "npm WARN"
    || scontains line "deprecated"

/-- `execute_repair` from src/repair/mod.rs, with the shell invocation
passed in as `out`; returns `Except` in place of `anyhow::Result`. -/
def execute_repair (action : RepairAction) (out : ExecOutput) : Except String Unit :=
  if scontains action.command "manually" || scontains action.command "Manual"
      || scontains action.command "reinstall Node.js" then
    Except.ok ()
  else if !out.success then
    let is_only_warnings := (slines out.stderr).all benignStderrLine
    if is_only_warnings && !(scontains out.stdout "error")
        && !(scontains out.stdout "ERR!") then
      Except.ok ()
    else
      let error_msg := if sisEmpty out.stderr then out.stdout else out.stderr
      Except.error ("Command failed: " ++ strim error_msg)
  else Except.ok ()

/-! ## Configuration (src/config/mod.rs) -/

/-- `SeverityOverride` from src/config/mod.rs. -/
inductive SeverityOverride
  | Pass
  | Info
  | Warning
  | Error
deriving DecidableEq, Repr

/-- The `From<SeverityOverride> for CheckSeverity` conversion. -/
def SeverityOverride.toCheckSeverity : SeverityOverride → CheckSeverity
  | SeverityOverride.Pass => CheckSeverity.Pass
  | SeverityOverride.Info => CheckSeverity.Info
  | SeverityOverride.Warning => CheckSeverity.Warning
  | SeverityOverride.Error => CheckSeverity.Error

/-- `Policies` from src/config/mod.rs. -/
structure Policies where
  allow_node_upgrade_minor : Bool
  allow_node_upgrade_major : Bool
  require_lockfile_frozen : Bool
  enforce_corepack : Bool
  allowed_package_managers : List String
  min_node_version : Option String
  max_node_version : Option String
deriving DecidableEq, Repr

/-- `Policies::default` from src/config/mod.rs. -/
def Policies.default : Policies :=
  ⟨true, false, true, false, [], none, none⟩

/-- `ChecksConfig` from src/config/mod.rs; the `HashMap` of severity
overrides is modelled as an association list with exact-key lookup. -/
structure ChecksConfig where
  disabled : List String
  severity_overrides : List (String × SeverityOverride)
  timeout_seconds : Option Nat
deriving DecidableEq, Repr

/-- Derived `ChecksConfig::default` (all serde defaults empty). -/
def ChecksConfig.default : ChecksConfig := ⟨[], [], none⟩

/-- `NextjsConfig` from src/config/mod.rs. -/
structure NextjsConfig where
  required_version : Option String
  check_cache_integrity : Bool
deriving DecidableEq, Repr

/-- `ReactConfig` from src/config/mod.rs. -/
structure ReactConfig where
  enforce_version_match : Bool
deriving DecidableEq, Repr

/-- `TypeScriptConfig` from src/config/mod.rs. -/
structure TypeScriptConfig where
  require_tsconfig : Bool
  enforce_strict : Bool
deriving DecidableEq, Repr

/-- `FrameworksConfig` from src/config/mod.rs. -/
structure FrameworksConfig where
  nextjs : NextjsConfig
  react : ReactConfig
  typescript : TypeScriptConfig
deriving DecidableEq, Repr

/-- Derived `FrameworksConfig::default` with the documented serde field
defaults. -/
def FrameworksConfig.default : FrameworksConfig :=
  ⟨⟨none, true⟩, ⟨true⟩, ⟨true, false⟩⟩

/-- `ZenvoConfig` from src/config/mod.rs. -/
structure ZenvoConfig where
  policies : Policies
  checks : ChecksConfig
  frameworks : FrameworksConfig
deriving DecidableEq, Repr

/-- Derived `ZenvoConfig::default`. -/
def ZenvoConfig.default : ZenvoConfig :=
  ⟨Policies.default, ChecksConfig.default, FrameworksConfig.default⟩

/-- Rust `char::to_ascii_lowercase`. -/
def asciiToLower (c : Char) : Char :=
  if 'A' ≤ c ∧ c ≤ 'Z' then Char.ofNat (c.toNat + 32) else c

/-- Rust `str::eq_ignore_ascii_case`. -/
def eqIgnoreAsciiCase (a b : String) : Bool :=
  a.data.map asciiToLower = b.data.map asciiToLower

/-- `ZenvoConfig::is_check_disabled` from src/config/mod.rs. -/
def ZenvoConfig.is_check_disabled (cfg : ZenvoConfig) (check_name : String) : Bool :=
  cfg.checks.disabled.any (fun name => eqIgnoreAsciiCase name check_name)

/-- `ZenvoConfig::get_severity_override` from src/config/mod.rs: a plain
`HashMap::get`, i.e. exact key lookup. -/
def ZenvoConfig.get_severity_override (cfg : ZenvoConfig) (check_name : String) :
    Option CheckSeverity :=
  (cfg.checks.severity_overrides.lookup check_name).map SeverityOverride.toCheckSeverity

/-- `apply_config_to_results` from src/checks/mod.rs. -/
def apply_config_to_results (results : List CheckResult) (config : ZenvoConfig) :
    List CheckResult :=
  (results.filter (fun r => !config.is_check_disabled r.name)).map
    (fun r =>
      match config.get_severity_override r.name with
      | some severity => { r with severity := severity }
      | none => r)

/-- State of the configuration file on disk, passed explicitly. -/
inductive FsFile
  | absent
  | unreadable (msg : String)
  | present (content : String)
deriving DecidableEq, Repr

/-- `ZenvoConfig::load_from` from src/config/mod.rs, with the filesystem
read passed as `file` and the external TOML deserializer passed as
`parseToml`. -/
def ZenvoConfig.load_from (parseToml : String → Except String ZenvoConfig)
    (file : FsFile) : Except String ZenvoConfig :=
  match file with
  | FsFile.absent => Except.ok ZenvoConfig.default
  | FsFile.unreadable msg => Except.error ("Failed to read config file: " ++ msg)
  | FsFile.present content =>
    match parseToml content with
    | Except.ok config => Except.ok config
    | Except.error e => Except.error ("Failed to parse config file: " ++ e)

/-- `ZenvoConfig::load_if_exists` from src/config/mod.rs (`load()` reads the
same default config path, so it receives the same `file`). -/
def ZenvoConfig.load_if_exists (parseToml : String → Except String ZenvoConfig)
    (file : FsFile) : Except String (Option ZenvoConfig) :=
  match file with
  | FsFile.absent => Except.ok none
  | _ => (ZenvoConfig.load_from parseToml file).map some

/-! ## Conflict Resolver (src/commands/resolve.rs) -/

/-- `DependencyConflict` from src/commands/resolve.rs. -/
structure DependencyConflict where
  package : String
  current_version : String
  conflicting_dep : String
  required_range : String
  actual_version : String
deriving DecidableEq, Repr

/-- Rust `str::strip_prefix` with a string pattern (a single occurrence). -/
def stripOncePre (s p : String) : Option String :=
  if sstarts s p then some (String.mk (s.data.drop p.data.length)) else none

/-- The `parse_ver` closure inside `version_satisfies`: strip leading `v`
chars, keep the part before the first hyphen, read up to three dot-separated
`u32` components (unparsable components are skipped), missing components
default to zero. -/
def parse_ver (s : String) : Nat × Nat × Nat :=
  let base := ((ssplitChar '-' (String.mk (trimStartMatchesChar 'v' s.data))).head?).getD ""
  let parts := (ssplitChar '.' base).filterMap parseU32
  (parts.getD 0 0, parts.getD 1 0, parts.getD 2 0)

/-- Fuel-driven body of `version_satisfies` from src/commands/resolve.rs;
recursion happens only on whitespace-split parts, which are strictly
shorter, so the wrapper's fuel is never exhausted. -/
def version_satisfies_fuel : Nat → String → String → Bool
  | 0, _, _ => false
  | fuel + 1, version, range =>
    let range := strim range
    if range = "*" || sisEmpty range then true
    else
      let v := parse_ver version
      if scontains range " " then
        (ssplitWhitespace range).all
          (fun part => version_satisfies_fuel fuel version part)
      else
        match stripOncePre range "^" with
        | some target =>
          let t := parse_ver target
          if t.1 = 0 then v.1 = 0 && v.2.1 = t.2.1 && v.2.2 ≥ t.2.2
          else v.1 = t.1 && (v.2.1 > t.2.1 || (v.2.1 = t.2.1 && v.2.2 ≥ t.2.2))
        | none =>
        match stripOncePre range "~" with
        | some target =>
          let t := parse_ver target
          v.1 = t.1 && v.2.1 = t.2.1 && v.2.2 ≥ t.2.2
        | none =>
        match stripOncePre range ">=" with
        | some target =>
          let t := parse_ver target
          v.1 > t.1 || (v.1 = t.1 && v.2.1 > t.2.1)
            || (v.1 = t.1 && v.2.1 = t.2.1 && v.2.2 ≥ t.2.2)
        | none =>
        match stripOncePre range "<" with
        | some target0 =>
          let t := parse_ver (String.mk (trimStartMatchesChar '=' target0.data))
          v.1 < t.1 || (v.1 = t.1 && v.2.1 < t.2.1)
            || (v.1 = t.1 && v.2.1 = t.2.1 && v.2.2 < t.2.2)
        | none =>
          let t := parse_ver range
          v.1 = t.1 && v.2.1 = t.2.1 && v.2.2 = t.2.2

/-- `version_satisfies` from src/commands/resolve.rs. -/
def version_satisfies (version range : String) : Bool :=
  version_satisfies_fuel (range.length + 1) version range

/-- Accumulator state of `parse_npm_conflicts` (the local `let mut`
variables of the Rust function). -/
structure NpmParseState where
  conflicts : List DependencyConflict
  current_package : String
  conflicting_dep : String
  required_range : String
  actual_version : String
  suggested_version : String
  found_eresolve : Bool
  found_dep_from_found_line : String
deriving DecidableEq, Repr

/-- Initial `parse_npm_conflicts` state. -/
def NpmParseState.init : NpmParseState := ⟨[], "", "", "", "", "", false, ""⟩

/-- Build one `DependencyConflict` the way both push sites of
`parse_npm_conflicts` do. -/
def NpmParseState.mkConflict (st : NpmParseState) : DependencyConflict :=
  ⟨st.conflicting_dep, st.actual_version, st.current_package, st.required_range,
    if !sisEmpty st.suggested_version then
      st.actual_version ++ " (suggested: " ++ st.suggested_version ++ ")"
    else st.actual_version⟩

/-- One loop iteration of `parse_npm_conflicts`: the five independent
anchor tests applied in source order to the trimmed line. -/
def npmParseLine (st : NpmParseState) (rawLine : String) : NpmParseState :=
  let line := strim rawLine
  let st :=
    if scontains line "ERESOLVE" then { st with found_eresolve := true } else st
  let st :=
    if scontains line "While resolving:" then
      match (ssplit line "While resolving:").get? 1 with
      | some pkg =>
        match srsplitOnce '@' (strim pkg) with
        | some (name, _) => { st with current_package := name }
        | none => st
      | none => st
    else st
  let st :=
    if scontains line "Found:" && !(scontains line "node_modules") then
      match (ssplit line "Found:").get? 1 with
      | some pkg =>
        match srsplitOnce '@' (strim pkg) with
        | some (name, ver) =>
          { st with conflicting_dep := name, actual_version := ver,
                    found_dep_from_found_line := name }
        | none => st
      | none => st
    else st
  let st :=
    if (scontains line "peer " || scontains line "peerOptional ")
        && scontains line " from " then
      let peer_start :=
        match findSub line.data "peerOptional ".data with
        | some pos => some (pos + 13)
        | none =>
          match findSub line.data "peer ".data with
          | some pos => some (pos + 5)
          | none => none
      match peer_start with
      | none => st
      | some start =>
        let after_peer := line.data.drop start
        match findSub after_peer " from ".data with
        | some from_idx =>
          let requirement := trimList (after_peer.take from_idx)
          match rsplitOnceChar '@' requirement with
          | some (depL, rangeL) =>
            let dep := String.mk depL
            let range := String.mk (trimMatchesChar sqc (trimMatchesChar '"' rangeL))
            if !sisEmpty dep
                && (dep = st.found_dep_from_found_line
                    || (sisEmpty st.required_range && st.conflicting_dep = dep)) then
              { st with conflicting_dep := dep, required_range := range }
            else st
          | none => st
        | none => st
    else st
  let st :=
    if scontains line "Conflicting peer dependency:" then
      match (ssplit line "Conflicting peer dependency:").get? 1 with
      | some pkg =>
        match srsplitOnce '@' (strim pkg) with
        | some (name, ver) =>
          if name = st.conflicting_dep || name = st.found_dep_from_found_line then
            { st with conflicting_dep := name, suggested_version := ver }
          else st
        | none => st
      | none => st
    else st
  if scontains line "Could not resolve dependency" then
    if !sisEmpty st.conflicting_dep && !sisEmpty st.actual_version then
      { st with conflicts := st.conflicts ++ [st.mkConflict],
                suggested_version := "" }
    else st
  else st

/-- `parse_npm_conflicts` from src/commands/resolve.rs (the Rust function
is infallible, so the `Result` wrapper is dropped). -/
def parse_npm_conflicts (output : String) : List DependencyConflict :=
  let st := (slines output).foldl npmParseLine NpmParseState.init
  if st.found_eresolve && !sisEmpty st.conflicting_dep
      && !sisEmpty st.actual_version
      && st.conflicts.all (fun c => c.package ≠ st.conflicting_dep) then
    st.conflicts ++ [st.mkConflict]
  else st.conflicts

/-! ## Snapshot Store: dependency-tree hash (src/lockfile/mod.rs)

`sha2::Sha256` is implemented here over `Nat` bytes and 32-bit words
(`% 2 ^ 32` where overflow matters).  All hashed tokens are `name@version`
strings, which npm restricts to ASCII, so a string's bytes are its
codepoints. -/

/-- Truncate to a 32-bit word. -/
def w32 (n : Nat) : Nat := n % 4294967296

/-- Rotate a 32-bit word right by `n`. -/
def rotr32 (n x : Nat) : Nat :=
  ((x >>> n) ||| (x <<< (32 - n))) % 4294967296

/-- SHA-256 `Ch` function. -/
def shaCh (x y z : Nat) : Nat := (x &&& y) ^^^ ((x ^^^ 4294967295) &&& z)

/-- SHA-256 `Maj` function. -/
def shaMaj (x y z : Nat) : Nat := (x &&& y) ^^^ (x &&& z) ^^^ (y &&& z)

/-- SHA-256 small sigma 0. -/
def shaS0 (x : Nat) : Nat := rotr32 7 x ^^^ rotr32 18 x ^^^ (x >>> 3)

/-- SHA-256 small sigma 1. -/
def shaS1 (x : Nat) : Nat := rotr32 17 x ^^^ rotr32 19 x ^^^ (x >>> 10)

/-- SHA-256 big sigma 0. -/
def shaB0 (x : Nat) : Nat := rotr32 2 x ^^^ rotr32 13 x ^^^ rotr32 22 x

/-- SHA-256 big sigma 1. -/
def shaB1 (x : Nat) : Nat := rotr32 6 x ^^^ rotr32 11 x ^^^ rotr32 25 x

/-- SHA-256 round constants. -/
def sha256K : List Nat :=
  [1116352408, 1899447441, 3049323471, 3921009573, 961987163, 1508970993,
   2453635748, 2870763221, 3624381080, 310598401, 607225278, 1426881987,
   1925078388, 2162078206, 2614888103, 3248222580, 3835390401, 4022224774,
   264347078, 604807628, 770255983, 1249150122, 1555081692, 1996064986,
   2554220882, 2821834349, 2952996808, 3210313671, 3336571891, 3584528711,
   113926993, 338241895, 666307205, 773529912, 1294757372, 1396182291,
   1695183700, 1986661051, 2177026350, 2456956037, 2730485921, 2820302411,
   3259730800, 3345764771, 3516065817, 3600352804, 4094571909, 275423344,
   430227734, 506948616, 659060556, 883997877, 958139571, 1322822218,
   1537002063, 1747873779, 1955562222, 2024104815, 2227730452, 2361852424,
   2428436474, 2756734187, 3204031479, 3329325298]

/-- SHA-256 initial hash state. -/
def sha256Init : List Nat :=
  [1779033703, 3144134277, 1013904242, 2773480762,
   1359893119, 2600822924, 528734635, 1541459225]

/-- Big-endian byte expansion of a value into `n` bytes. -/
def bytesBE (n v : Nat) : List Nat :=
  (List.range n).map (fun i => (v >>> (8 * (n - 1 - i))) % 256)

/-- Split a list into chunks of `n`, fuel-driven. -/
def chunkListAux (n : Nat) : Nat → List α → List (List α)
  | 0, _ => []
  | _, [] => []
  | fuel + 1, l => l.take n :: chunkListAux n fuel (l.drop n)

/-- Split a list into chunks of `n` (callers use `n > 0`). -/
def chunkList (n : Nat) (l : List α) : List (List α) := chunkListAux n l.length l

/-- SHA-256 padding: append `0x80`, zeros, and the 64-bit big-endian bit
length, reaching a multiple of 64 bytes. -/
def sha256pad (msg : List Nat) : List Nat :=
  let zeros := (55 - msg.length % 64 + 64) % 64
  msg ++ [128] ++ List.replicate zeros 0 ++ bytesBE 8 (msg.length * 8)

/-- Combine groups of four bytes into big-endian 32-bit words. -/
def wordsOfBytes (bytes : List Nat) : List Nat :=
  (chunkList 4 bytes).map (fun c => c.foldl (fun acc b => acc * 256 + b) 0)

/-- SHA-256 message schedule from the sixteen block words. -/
def sha256schedule (w16 : List Nat) : List Nat :=
  (List.range 48).foldl
    (fun w _ =>
      w ++ [w32 (shaS1 (w.getD (w.length - 2) 0) + w.getD (w.length - 7) 0
        + shaS0 (w.getD (w.length - 15) 0) + w.getD (w.length - 16) 0)])
    w16

/-- SHA-256 compression of one 64-byte block into the running state. -/
def sha256compress (h : List Nat) (block : List Nat) : List Nat :=
  let w := sha256schedule (wordsOfBytes block)
  let st := (List.zip sha256K w).foldl
    (fun s kw =>
      let a := s.getD 0 0
      let b := s.getD 1 0
      let c := s.getD 2 0
      let d := s.getD 3 0
      let e := s.getD 4 0
      let f := s.getD 5 0
      let g := s.getD 6 0
      let hh := s.getD 7 0
      let t1 := w32 (hh + shaB1 e + shaCh e f g + kw.1 + kw.2)
      let t2 := w32 (shaB0 a + shaMaj a b c)
      [w32 (t1 + t2), a, b, c, w32 (d + t1), e, f, g])
    h
  (List.zip h st).map (fun p => w32 (p.1 + p.2))

/-- SHA-256 digest (32 bytes) of a byte list. -/
def sha256 (msg : List Nat) : List Nat :=
  ((chunkList 64 (sha256pad msg)).foldl sha256compress sha256Init).flatMap (bytesBE 4)

/-- Lowercase hex digit. -/
def hexDigit (n : Nat) : Char :=
  if n < 10 then Char.ofNat (48 + n) else Char.ofNat (87 + n)

/-- Lowercase hex string of a byte list (the `{:x}` rendering of the
digest). -/
def hexOfBytes (bs : List Nat) : String :=
  String.mk (bs.flatMap (fun b => [hexDigit (b / 16), hexDigit (b % 16)]))

/-- Bytes of an (ASCII) string. -/
def strBytes (s : String) : List Nat := s.data.map Char.toNat

/-- One top-level `node_modules` directory entry as observed by
`compute_node_modules_hash`: for an entry whose name starts with an at sign
the code lists its children (`subs`, each with the version read through
`resolve_symlink_if_needed` and `get_package_version`); otherwise it reads
`version` the same way. -/
structure NmEntry where
  name : String
  subs : List (String × Option String)
  version : Option String
deriving DecidableEq, Repr

/-- The filesystem facts consumed by `compute_node_modules_hash`: presence
of `node_modules`, its entry listing in enumeration order, presence of the
`.pnpm` store, and the store's directory-name listing. -/
structure NodeModulesFs where
  present : Bool
  entries : List NmEntry
  pnpm_present : Bool
  pnpm_entries : List String
deriving DecidableEq, Repr

/-- `parse_pnpm_package_dir` from src/lockfile/mod.rs. -/
def parse_pnpm_package_dir (dir_name : String) : Option (String × String) :=
  if sstarts dir_name "." || !(scontains dir_name "@") then none
  else if sstarts dir_name "@" || scontains dir_name "+" then
    match lastIdxOf '@' dir_name.data with
    | some last_at =>
      if last_at > 0 then
        let name := String.mk ((dir_name.data.take last_at).map
          (fun c => if c = '+' then '/' else c))
        let version := dir_name.data.drop (last_at + 1)
        if version ≠ [] ∧ (version.head?.map Char.isDigit).getD false then
          some (name, String.mk version)
        else none
      else none
    | none => none
  else
    match lastIdxOf '@' dir_name.data with
    | some at_idx =>
      if at_idx > 0 then
        let name := dir_name.data.take at_idx
        let version := dir_name.data.drop (at_idx + 1)
        if version ≠ [] ∧ (version.head?.map Char.isDigit).getD false then
          some (String.mk name, String.mk version)
        else none
      else none
    | none => none

/-- `enumerate_pnpm_store_packages` from src/lockfile/mod.rs (keeps only
the first 1000 directory entries). -/
def enumerate_pnpm_store_packages (present : Bool) (entries : List String) :
    Option (List String) :=
  if !present then none
  else
    let packages := (entries.take 1000).filterMap
      (fun dir_name => (parse_pnpm_package_dir dir_name).map
        (fun nv => nv.1 ++ "@" ++ nv.2))
    if packages = [] then none else some packages

/-- The top-level token collection loop of `compute_node_modules_hash`. -/
def topLevelTokens (entries : List NmEntry) : List String :=
  entries.foldl
    (fun acc e =>
      if sstarts e.name "." ∧ e.name ≠ ".bin" then acc
      else if e.name = ".bin" then acc
      else if sstarts e.name "@" then
        acc ++ e.subs.filterMap
          (fun sub => sub.2.map (fun v => e.name ++ "/" ++ sub.1 ++ "@" ++ v))
      else
        match e.version with
        | some v => acc ++ [e.name ++ "@" ++ v]
        | none => acc)
    []

/-- Full token collection of `compute_node_modules_hash`: top-level tokens,
then the pnpm-store tokens not already present. -/
def collectPackages (fs : NodeModulesFs) : List String :=
  let packages := topLevelTokens fs.entries
  if fs.pnpm_present then
    match enumerate_pnpm_store_packages fs.pnpm_present fs.pnpm_entries with
    | some pnpm_packages =>
      pnpm_packages.foldl
        (fun acc pkg => if acc.contains pkg then acc else acc ++ [pkg]) packages
    | none => packages
  else packages

/-- Lexicographic strict order on char lists by codepoint; on the ASCII
tokens hashed here this is exactly the Rust byte order of `String::sort`. -/
def charListLt : List Char → List Char → Bool
  | _, [] => false
  | [], _ :: _ => true
  | a :: s, b :: t =>
    if a.toNat < b.toNat then true
    else if b.toNat < a.toNat then false
    else charListLt s t

/-- Non-strict lexicographic order on strings. -/
def strOrder (a b : String) : Prop := charListLt b.data a.data = false

/-- Decidability of the string order. -/
instance : DecidableRel strOrder := fun a b => by
  unfold strOrder; exact instDecidableEqBool _ _

/-- The sorted token list (`packages.sort()` on Rust strings is the
lexicographic byte order, which agrees with `strOrder` on these ASCII
tokens). -/
def sortedPackages (fs : NodeModulesFs) : List String :=
  List.insertionSort strOrder (collectPackages fs)

/-- The exact character stream fed to the hasher: each sorted token
followed by a newline; `none` when `node_modules` is absent or no token was
collected (the code returns no hash there). -/
def nodeModulesHashStream (fs : NodeModulesFs) : Option String :=
  if !fs.present then none
  else if collectPackages fs = [] then none
  else some (String.join ((sortedPackages fs).map (fun pkg => pkg ++ "\n")))

/-- `compute_node_modules_hash` from src/lockfile/mod.rs. -/
def compute_node_modules_hash (fs : NodeModulesFs) : Option String :=
  (nodeModulesHashStream fs).map
    (fun stream => "sha256:" ++ hexOfBytes (sha256 (strBytes stream)))

/-- The finding names carrying a dedicated arm in
`issue_to_action_with_context`; every other name reaches the default arm. -/
def repairTableNames : List String :=
  ["Node version match", "Package manager match", "node_modules exists",
   "node_modules in sync", "node_modules integrity", "Lockfile exists",
   "Lockfile integrity", "Lockfile hash match", "Lockfile corrupted",
   "Single lockfile", "npm cache integrity", "Cache corrupted",
   "TypeScript config", "ESLint config", "Corepack available",
   "Corepack enabled", "Prettier config", "Peer dependencies",
   "npm accessible", "yarn accessible", "pnpm accessible", "bun accessible",
   "Node.js accessible"]

/-! ## Theorems -/

/-- C1: with current and minimum schema versions both 1.0,
`validate_schema_version` is pure and returns Current exactly on a file
version parsing to (1,0); TooOld exactly below the minimum (major 0);
TooNew exactly when the file major exceeds the current major; Invalid
exactly when the string does not parse as two dot-separated numeric
components; and Supported in every remaining case (major 1, minor above 0). -/
theorem validate_schema_version_cases (v : String) :
    (validate_schema_version v = SchemaVersionStatus.Current ↔
        parse_version v = some (1, 0))
    ∧ (validate_schema_version v = SchemaVersionStatus.TooOld v "1.0" ↔
        ∃ m, parse_version v = some (0, m))
    ∧ (validate_schema_version v = SchemaVersionStatus.TooNew v "1.0" ↔
        ∃ a b, parse_version v = some (a, b) ∧ 1 < a)
    ∧ ((∃ r, validate_schema_version v = SchemaVersionStatus.Invalid r) ↔
        parse_version v = none)
    ∧ (validate_schema_version v = SchemaVersionStatus.Supported v ↔
        ∃ b, parse_version v = some (1, b) ∧ b ≠ 0) := by
  have hc : parse_version "1.0" = some (1, 0) := by decide
  unfold validate_schema_version CURRENT_SCHEMA_VERSION MIN_SUPPORTED_SCHEMA_VERSION
  rw [hc]
  rcases h : parse_version v with _ | ⟨a, b⟩
  · simp
  · simp only [pairLt]
    by_cases h1 : 1 < a
    · have : ¬ a = 0 := by omega
      simp [h1, this]
      omega
    · by_cases h2 : a = 0
      · subst h2
        simp [h1]
      · have ha : a = 1 := by omega
        subst ha
        by_cases h3 : b = 0
        · subst h3
          simp
        · simp [h3, Prod.ext_iff]

/-- C10: when the configuration file does not exist, `load_from` returns
the built-in defaults (minor upgrades allowed, major upgrades not, frozen
lockfile required, corepack not enforced, no disabled checks, no severity
overrides) without error, and `load_if_exists` returns `none` instead of
an error, whatever the TOML deserializer does. -/
theorem load_from_missing_file_defaults
    (parseToml : String → Except String ZenvoConfig) :
    ZenvoConfig.load_from parseToml FsFile.absent = Except.ok ZenvoConfig.default
    ∧ ZenvoConfig.default.policies.allow_node_upgrade_minor = true
    ∧ ZenvoConfig.default.policies.allow_node_upgrade_major = false
    ∧ ZenvoConfig.default.policies.require_lockfile_frozen = true
    ∧ ZenvoConfig.default.policies.enforce_corepack = false
    ∧ ZenvoConfig.default.checks.disabled = []
    ∧ ZenvoConfig.default.checks.severity_overrides = []
    ∧ ZenvoConfig.load_if_exists parseToml FsFile.absent = Except.ok none := by
  refine ⟨rfl, rfl, rfl, rfl, rfl, rfl, rfl, rfl⟩

set_option maxRecDepth 400000 in
/-- C7: the documented npm ERESOLVE diagnostic (resolving react-native,
found @types/react 19.0.14, peerOptional range ^19.1.0, conflicting peer
19.2.8, then the terminator) parses to exactly one conflict with package
@types/react, current version 19.0.14, conflicting dependency
react-native, and required range ^19.1.0. -/
theorem parse_npm_conflicts_example :
    parse_npm_conflicts
        ("While resolving: react-native@0.81.5\nFound: @types/react@19.0.14\n"
          ++ "peerOptional @types/react@\"^19.1.0\" from react-native@0.81.5\n"
          ++ "Conflicting peer dependency: @types/react@19.2.8\n"
          ++ "Could not resolve dependency:")
      = [⟨"@types/react", "19.0.14", "react-native", "^19.1.0",
          "19.0.14 (suggested: 19.2.8)"⟩] := by
  decide

/-- C2 counterexample: with engines.node requiring at least 18.17.0 and
runtime 16.0.0, the engines-compliance check does produce the single Error
finding, but the planned action for it is needs-review (is_safe false) and
its command is the suggested fix text, not a runtime-switch command —
"Engines compliance" has no arm in the repair table. -/
theorem engines_compliance_action_not_safe :
    (check_engines_compliance (some ">=18.17.0") "16.0.0").map
        (fun f => f.severity) = some CheckSeverity.Error
    ∧ (check_engines_compliance (some ">=18.17.0") "16.0.0").map
        (fun f => generate_repair_plan_with_context [f]
          ⟨"npm", none, some "18.17.0"⟩ ⟨false, false, false, false, false, false⟩)
      = some [⟨"Engines compliance",
          "Install a Node version matching >=18.17.0", false⟩] := by
  constructor
  · decide
  · decide

/-- C2 amended: with engines.node requiring at least 18.17.0 and runtime
16.0.0, the engines-compliance check produces exactly one finding, an Error
carrying the install suggestion as its fix, and for every repair context
and platform the planner emits exactly one action for it: a needs-review
action whose command is that suggested fix verbatim. -/
theorem engines_compliance_error_and_plan (ctx : RepairContext) (env : OsEnv) :
    ∃ f, check_engines_compliance (some ">=18.17.0") "16.0.0" = some f
      ∧ f.severity = CheckSeverity.Error
      ∧ f.suggested_fix = some "Install a Node version matching >=18.17.0"
      ∧ generate_repair_plan_with_context [f] ctx env
          = [⟨"Engines compliance",
              "Install a Node version matching >=18.17.0", false⟩] := by
  refine ⟨_, rfl, ?_, ?_, ?_⟩
  · decide
  · decide
  · rfl

/-- C4 counterexample: severity overrides are looked up by exact key, so
two names differing only in letter case do not select the same override:
the lower-case key hits, the cased variant misses and its finding keeps
its original severity. -/
theorem severity_override_case_sensitive :
    ZenvoConfig.get_severity_override
        ⟨Policies.default, ⟨[], [("peer dependencies", SeverityOverride.Error)], none⟩,
          FrameworksConfig.default⟩ "peer dependencies" = some CheckSeverity.Error
    ∧ ZenvoConfig.get_severity_override
        ⟨Policies.default, ⟨[], [("peer dependencies", SeverityOverride.Error)], none⟩,
          FrameworksConfig.default⟩ "Peer Dependencies" = none
    ∧ apply_config_to_results
        [⟨"Peer Dependencies", "deps", CheckSeverity.Warning, "", none⟩]
        ⟨Policies.default, ⟨[], [("peer dependencies", SeverityOverride.Error)], none⟩,
          FrameworksConfig.default⟩
      = [⟨"Peer Dependencies", "deps", CheckSeverity.Warning, "", none⟩] := by
  refine ⟨by decide, by decide, by decide⟩

/-- C4 amended: dropping name-disabled findings matches names
case-insensitively (names equal up to ASCII case select the same disabled
entry), while severity overrides are exact-key lookups: a name that equals
no override key verbatim receives no override, whatever its casing. -/
theorem config_name_matching (cfg : ZenvoConfig) (n1 n2 : String)
    (hcase : eqIgnoreAsciiCase n1 n2 = true) :
    cfg.is_check_disabled n1 = cfg.is_check_disabled n2
    ∧ ((∀ p ∈ cfg.checks.severity_overrides, p.1 ≠ n1) →
        cfg.get_severity_override n1 = none) := by
  constructor
  · simp only [eqIgnoreAsciiCase, decide_eq_true_eq] at hcase
    simp only [ZenvoConfig.is_check_disabled, eqIgnoreAsciiCase, hcase]
  · intro hkeys
    have : ∀ l : List (String × SeverityOverride), (∀ p ∈ l, p.1 ≠ n1) →
        List.lookup n1 l = none := by
      intro l
      induction l with
      | nil => intro _; rfl
      | cons p t ih =>
        obtain ⟨k, val⟩ := p
        intro h
        have hk : ¬ n1 = k := fun he => (h (k, val) (List.mem_cons_self _ _)) he.symm
        have hb : (n1 == k) = false := by
          rw [beq_eq_false_iff_ne]
          exact hk
        simp only [List.lookup, hb]
        exact ih fun q hq => h q (List.mem_cons_of_mem _ hq)
    simp [ZenvoConfig.get_severity_override, this _ hkeys]

/-- C4 amended witness at a concrete configuration: FOO and foo agree on
the disabled test, and a name missing from the override keys gets none. -/
theorem config_name_matching_witness :
    ZenvoConfig.is_check_disabled
        ⟨Policies.default, ⟨["foo"], [("bar", SeverityOverride.Info)], none⟩,
          FrameworksConfig.default⟩ "FOO"
      = ZenvoConfig.is_check_disabled
        ⟨Policies.default, ⟨["foo"], [("bar", SeverityOverride.Info)], none⟩,
          FrameworksConfig.default⟩ "foo"
    ∧ ZenvoConfig.get_severity_override
        ⟨Policies.default, ⟨["fooo"], [("bar", SeverityOverride.Info)], none⟩,
          FrameworksConfig.default⟩ "FOO" = none := by
  refine ⟨(config_name_matching _ "FOO" "foo" (by decide)).1,
    (config_name_matching _ "FOO" "foo" (by decide)).2 ?_⟩
  intro p hp
  simp at hp
  simp [hp]

/-- C9 counterexample: a diagnostic stream consisting of one whitespace-only
line is not empty and matches none of the stated benign patterns, yet the
executor still treats the non-zero exit as success — the code tests lines
after trimming, so the claimed condition is not necessary. -/
theorem execute_repair_blank_line_tolerated :
    execute_repair ⟨"Install dependencies using npm", "npm ci", true⟩
        ⟨false, "", " "⟩ = Except.ok ()
    ∧ ¬ (" " = "" ∨ sstarts " " "warning " = true ∨ sstarts " " "npm WARN" = true
        ∨ scontains " " "deprecated" = true) := by
  refine ⟨by rfl, by decide⟩

/-- C9 amended: for a non-placeholder command whose run exits non-zero, the
executor reports success exactly when every diagnostic-stream line is blank
after trimming or starts with a recognized warning marker or mentions a
deprecation, and the informational stream contains neither error token; in
every other case it fails carrying the trimmed diagnostic stream, or the
informational stream when the diagnostic stream is empty. -/
theorem execute_repair_nonzero_exit (action : RepairAction) (out : ExecOutput)
    (h1 : scontains action.command "manually" = false)
    (h2 : scontains action.command "Manual" = false)
    (h3 : scontains action.command "reinstall Node.js" = false)
    (hfail : out.success = false) :
    (execute_repair action out = Except.ok () ↔
        ((slines out.stderr).all benignStderrLine = true
          ∧ scontains out.stdout "error" = false
          ∧ scontains out.stdout "ERR!" = false))
    ∧ (execute_repair action out ≠ Except.ok () →
        execute_repair action out
          = Except.error ("Command failed: "
              ++ strim (if sisEmpty out.stderr then out.stdout else out.stderr))) := by
  unfold execute_repair
  simp only [h1, h2, h3, hfail]
  by_cases hb : (slines out.stderr).all benignStderrLine = true
  · by_cases he : scontains out.stdout "error" = false
    · by_cases hr : scontains out.stdout "ERR!" = false
      · simp [hb, he, hr]
      · simp at hr
        simp [hb, he, hr]
    · simp at he
      simp [hb, he]
  · simp at hb
    simp [hb]

/-- C9 amended witness: a non-zero exit with purely benign diagnostics
(an npm WARN line, a deprecation notice, a blank line) and a clean
informational stream is accepted as success. -/
theorem execute_repair_nonzero_exit_witness :
    execute_repair ⟨"Reinstall dependencies using npm", "npm ci", true⟩
        ⟨false, "added 12 packages", "npm WARN old\nthis one is deprecated\n \n"⟩
      = Except.ok () :=
  ((execute_repair_nonzero_exit ⟨"Reinstall dependencies using npm", "npm ci", true⟩
      ⟨false, "added 12 packages", "npm WARN old\nthis one is deprecated\n \n"⟩
      (by decide) (by decide) (by decide) rfl).1).mpr (by decide)

/-- C3 counterexample: the range-satisfaction predicate of the Conflict
Resolver recognizes neither strict greater-than nor the OR operator, and
treats a less-or-equal bound as strict: 19.0.0 fails the range above
18.0.0, an OR whose first branch is satisfied still fails as a whole, and
a version equal to its less-or-equal bound fails. -/
theorem version_satisfies_unimplemented_forms :
    version_satisfies "19.0.0" ">18.0.0" = false
    ∧ version_satisfies "1.0.0" "^1.0.0" = true
    ∧ version_satisfies "1.0.0" "^1.0.0 || ^2.0.0" = false
    ∧ version_satisfies "18.0.0" "<=18.0.0" = false := by
  refine ⟨by decide, by decide, by decide, by decide⟩

/-- Inserting an unsafe action walks past a safe block and lands in front
of the unsafe block. -/
theorem insertActionBySafety_append (x : RepairAction) (hx : x.is_safe = false) :
    ∀ (s u : List RepairAction), (∀ a ∈ s, a.is_safe = true) →
      (∀ a, u.head? = some a → a.is_safe = false) →
      insertActionBySafety x (s ++ u) = s ++ x :: u := by
  intro s
  induction s with
  | nil =>
    intro u _ hu
    cases u with
    | nil => rfl
    | cons b t =>
      have hb : b.is_safe = false := hu b rfl
      simp [insertActionBySafety, hx, hb]
  | cons a s ih =>
    intro u hs hu
    have ha : a.is_safe = true := hs a (List.mem_cons_self _ _)
    simp only [List.cons_append, insertActionBySafety, hx, ha, Bool.not_false,
      Bool.true_and, if_true]
    exact congrArg (a :: ·) (ih u (fun b hb => hs b (List.mem_cons_of_mem _ hb)) hu)

/-- The planner sort computes the stable safe-first partition. -/
theorem sortActionsBySafety_eq (l : List RepairAction) :
    sortActionsBySafety l
      = l.filter (fun a => a.is_safe) ++ l.filter (fun a => !a.is_safe) := by
  induction l with
  | nil => rfl
  | cons x xs ih =>
    by_cases hx : x.is_safe
    · have hfront : insertActionBySafety x (sortActionsBySafety xs)
          = x :: sortActionsBySafety xs := by
        cases h : sortActionsBySafety xs with
        | nil => rfl
        | cons y ys => simp [insertActionBySafety, hx]
      calc sortActionsBySafety (x :: xs)
          = insertActionBySafety x (sortActionsBySafety xs) := rfl
        _ = x :: sortActionsBySafety xs := hfront
        _ = (x :: xs).filter (fun a => a.is_safe)
              ++ (x :: xs).filter (fun a => !a.is_safe) := by
            simp [ih, List.filter_cons, hx]
    · have hx' : x.is_safe = false := by simpa using hx
      have hs : ∀ a ∈ xs.filter (fun a => a.is_safe), a.is_safe = true := by
        intro a ha
        simpa using (List.mem_filter.mp ha).2
      have hu : ∀ a, (xs.filter (fun a => !a.is_safe)).head? = some a →
          a.is_safe = false := by
        intro a ha
        have := (List.mem_filter.mp (List.mem_of_mem_head? ha)).2
        simpa using this
      calc sortActionsBySafety (x :: xs)
          = insertActionBySafety x (sortActionsBySafety xs) := rfl
        _ = insertActionBySafety x
              (xs.filter (fun a => a.is_safe) ++ xs.filter (fun a => !a.is_safe)) := by
            rw [ih]
        _ = xs.filter (fun a => a.is_safe) ++ x :: xs.filter (fun a => !a.is_safe) :=
            insertActionBySafety_append x hx' _ _ hs hu
        _ = (x :: xs).filter (fun a => a.is_safe)
              ++ (x :: xs).filter (fun a => !a.is_safe) := by
            simp [List.filter_cons, hx']

/-- C5: the generated plan is exactly the safe actions followed by the
needs-review actions, each group keeping the relative order of the findings
that produced them (the filter of the finding-order action list). -/
theorem generate_repair_plan_partition (issues : List CheckResult)
    (ctx : RepairContext) (env : OsEnv) :
    generate_repair_plan_with_context issues ctx env
      = (issues.filterMap
            (fun i => issue_to_action_with_context i ctx env)).filter
            (fun a => a.is_safe)
        ++ (issues.filterMap
            (fun i => issue_to_action_with_context i ctx env)).filter
            (fun a => !a.is_safe) :=
  sortActionsBySafety_eq _

/-- C6: a finding whose name has no arm in the repair table yields, when it
carries a suggested fix, exactly one needs-review action whose command is
that fix text verbatim, and no action at all when it carries no fix. -/
theorem finding_without_table_entry (issue : CheckResult) (ctx : RepairContext)
    (env : OsEnv) (hname : ¬ issue.name ∈ repairTableNames) :
    (∀ fix, issue.suggested_fix = some fix →
        generate_repair_plan_with_context [issue] ctx env
          = [⟨issue.name, fix, false⟩])
    ∧ (issue.suggested_fix = none →
        generate_repair_plan_with_context [issue] ctx env = []) := by
  have harm : issue_to_action_with_context issue ctx env
      = match issue.suggested_fix with
        | some fix => some ⟨issue.name, fix, false⟩
        | none => none := by
    unfold issue_to_action_with_context
    split
    all_goals first
      | rfl
      | (exfalso; apply hname; simp_all [repairTableNames])
  constructor
  · intro fix hfix
    simp [generate_repair_plan_with_context, List.filterMap, harm, hfix,
      sortActionsBySafety, insertActionBySafety]
  · intro hnone
    simp [generate_repair_plan_with_context, List.filterMap, harm, hnone,
      sortActionsBySafety]

/-- C6 witness: a finding with an unrecognized name and a suggested fix
plans to exactly that one needs-review action, and one without a fix plans
to nothing. -/
theorem finding_without_table_entry_witness :
    generate_repair_plan_with_context
        [⟨"Unmapped finding", "deps", CheckSeverity.Warning, "m", some "run the fix"⟩]
        ⟨"npm", none, none⟩ ⟨false, false, false, false, false, false⟩
      = [⟨"Unmapped finding", "run the fix", false⟩]
    ∧ generate_repair_plan_with_context
        [⟨"Unmapped finding", "deps", CheckSeverity.Warning, "m", none⟩]
        ⟨"npm", none, none⟩ ⟨false, false, false, false, false, false⟩
      = [] :=
  ⟨(finding_without_table_entry _ _ _ (by decide)).1 "run the fix" rfl,
   (finding_without_table_entry _ _ _ (by decide)).2 rfl⟩

/-- Congruence for `List.all` under pointwise equal predicates. -/
theorem listAllCongr {α : Type} {l : List α} {f g : α → Bool}
    (h : ∀ x ∈ l, f x = g x) : l.all f = l.all g := by
  induction l with
  | nil => rfl
  | cons a t ih =>
    simp only [List.all_cons, h a (List.mem_cons_self _ _),
      ih (fun x hx => h x (List.mem_cons_of_mem _ hx))]

/-- Splitting never returns an empty piece list. -/
theorem splitChar_ne_nil (c : Char) : ∀ s : List Char, splitChar c s ≠ [] := by
  intro s
  induction s with
  | nil => simp [splitChar]
  | cons a t ih =>
    simp only [splitChar]
    cases hsp : splitChar c t with
    | nil => exact absurd hsp ih
    | cons h0 rt =>
      by_cases hac : a = c <;> simp [hac]

/-- Every piece of a char split is no longer than the input, and strictly
shorter when the separator occurs. -/
theorem splitChar_length {c : Char} : ∀ {s p : List Char}, p ∈ splitChar c s →
    p.length ≤ s.length ∧ (c ∈ s → p.length < s.length) := by
  intro s
  induction s with
  | nil =>
    intro p hp
    simp [splitChar] at hp
    subst hp
    simp
  | cons a t ih =>
    intro p hp
    obtain ⟨h0, rt, heq⟩ : ∃ h0 rt, splitChar c t = h0 :: rt := by
      cases hsp : splitChar c t with
      | nil => exact absurd hsp (splitChar_ne_nil c t)
      | cons h0 rt => exact ⟨h0, rt, rfl⟩
    simp only [splitChar, heq] at hp
    by_cases hac : a = c
    · simp only [hac, if_true, List.mem_cons] at hp
      rcases hp with hp | hp
      · subst hp
        constructor
        · simp
        · intro _; simp
      · have hpt : p ∈ splitChar c t := by
          rw [heq]; exact List.mem_cons.mpr hp
        have := ih hpt
        constructor
        · exact Nat.le_succ_of_le this.1
        · intro _
          exact Nat.lt_succ_of_le this.1
    · simp only [hac, if_false, List.mem_cons] at hp
      rcases hp with hp | hp
      · subst hp
        have hh0 : h0 ∈ splitChar c t := by rw [heq]; exact List.mem_cons_self _ _
        have := ih hh0
        constructor
        · simpa using Nat.succ_le_succ this.1
        · intro hmem
          have hct : c ∈ t := by
            rcases List.mem_cons.mp hmem with h | h
            · exact absurd h.symm hac
            · exact h
          simpa using Nat.succ_lt_succ (this.2 hct)
      · have hpt : p ∈ splitChar c t := by
          rw [heq]; exact List.mem_cons_of_mem _ hp
        have := ih hpt
        constructor
        · exact Nat.le_succ_of_le this.1
        · intro _
          exact Nat.lt_succ_of_le this.1

/-- A contained single-char pattern means the char occurs. -/
theorem mem_of_containsSub_single {c : Char} : ∀ {s : List Char},
    containsSub s [c] = true → c ∈ s := by
  have aux : ∀ (s : List Char) (i : Nat),
      (findSubFrom [c] s i).isSome = true → c ∈ s := by
    intro s
    induction s with
    | nil => intro i h; simp [findSubFrom] at h
    | cons a t ih =>
      intro i h
      by_cases hac : a = c
      · exact hac ▸ List.mem_cons_self _ _
      · have hsw : listStartsWith (a :: t) [c] = false := by
          simp [listStartsWith, hac]
        simp only [findSubFrom, hsw, Bool.false_eq_true, if_false] at h
        exact List.mem_cons_of_mem _ (ih (i + 1) h)
  intro s h
  exact aux s 0 (by simpa [containsSub, findSub] using h)

/-- An occurring char makes the single-char pattern contained. -/
theorem containsSub_single_of_mem {c : Char} : ∀ {s : List Char},
    c ∈ s → containsSub s [c] = true := by
  have aux : ∀ (s : List Char) (i : Nat), c ∈ s →
      (findSubFrom [c] s i).isSome = true := by
    intro s
    induction s with
    | nil => intro i h; simp at h
    | cons a t ih =>
      intro i h
      by_cases hac : a = c
      · have hsw : listStartsWith (a :: t) [c] = true := by
          simp [listStartsWith, hac]
        simp [findSubFrom, hsw]
      · have hsw : listStartsWith (a :: t) [c] = false := by
          simp [listStartsWith, hac]
        have hct : c ∈ t := by
          rcases List.mem_cons.mp h with h | h
          · exact absurd h.symm hac
          · exact h
        simp only [findSubFrom, hsw, Bool.false_eq_true, if_false]
        exact ih (i + 1) hct
  intro s h
  simpa [containsSub, findSub] using aux s 0 h

/-- Dropping a leading run does not lengthen a list. -/
theorem dropWhileLen {α : Type} (p : α → Bool) :
    ∀ l : List α, (l.dropWhile p).length ≤ l.length := by
  intro l
  induction l with
  | nil => simp
  | cons a t ih =>
    by_cases h : p a = true <;> simp [List.dropWhile_cons, h]
    exact Nat.le_succ_of_le ih

/-- Trimming does not lengthen a char list. -/
theorem trimList_length (l : List Char) : (trimList l).length ≤ l.length := by
  unfold trimList
  calc ((l.dropWhile rustIsWhitespace).reverse.dropWhile rustIsWhitespace).reverse.length
      = ((l.dropWhile rustIsWhitespace).reverse.dropWhile rustIsWhitespace).length := by
        simp
    _ ≤ (l.dropWhile rustIsWhitespace).reverse.length := dropWhileLen _ _
    _ = (l.dropWhile rustIsWhitespace).length := by simp
    _ ≤ l.length := dropWhileLen _ _

/-- Whitespace-split pieces are no longer than the input, and strictly
shorter when a space occurs. -/
theorem splitWhitespaceList_length {s p : List Char}
    (hp : p ∈ splitWhitespaceList s) :
    p.length ≤ s.length ∧ (' ' ∈ s → p.length < s.length) := by
  have hp' : p ∈ splitChar ' ' (s.map (fun c => if rustIsWhitespace c then ' ' else c)) :=
    List.mem_of_mem_filter hp
  have hlen := splitChar_length hp'
  rw [List.length_map] at hlen
  refine ⟨hlen.1, fun hmem => ?_⟩
  refine hlen.2 ?_
  refine List.mem_map.mpr ⟨' ', hmem, ?_⟩
  simp [rustIsWhitespace]

/-- Congruence of the range-check body in its recursive calls: only the
space-AND branch recurses. -/
theorem vsf_congr (f g : Nat) (v r : String)
    (h : scontains (strim r) " " = true →
      ∀ p ∈ ssplitWhitespace (strim r),
        version_satisfies_fuel f v p = version_satisfies_fuel g v p) :
    version_satisfies_fuel (f + 1) v r = version_satisfies_fuel (g + 1) v r := by
  simp only [version_satisfies_fuel]
  by_cases h0 : (strim r = "*" || sisEmpty (strim r)) = true
  · simp [h0]
  · by_cases h1 : scontains (strim r) " " = true
    · simp only [h0, Bool.false_eq_true, if_false, h1, if_true]
      exact listAllCongr (h h1)
    · simp only [h0, Bool.false_eq_true, if_false, h1]

/-- Any fuel of at least the range length plus one computes
`version_satisfies`. -/
theorem vsf_fuel : ∀ (fuel : Nat) (v r : String), r.length + 1 ≤ fuel →
    version_satisfies_fuel fuel v r = version_satisfies v r := by
  intro fuel
  induction fuel using Nat.strong_induction_on with
  | _ fuel ih =>
    intro v r hle
    cases fuel with
    | zero => omega
    | succ f =>
      show version_satisfies_fuel (f + 1) v r = version_satisfies_fuel (r.length + 1) v r
      apply vsf_congr
      intro hsp p hp
      obtain ⟨q, hq, hpq⟩ := List.mem_map.mp hp
      have hqd : p.data = q := by rw [← hpq]
      have hql : p.length = q.length := by
        rw [show p.length = p.data.length from rfl, hqd]
      have hmem : (' ' : Char) ∈ (strim r).data :=
        mem_of_containsSub_single (by simpa [scontains] using hsp)
      have hlt : q.length < (strim r).data.length :=
        (splitWhitespaceList_length hq).2 hmem
      have htr : (strim r).data.length ≤ r.length := by
        simpa [strim] using trimList_length r.data
      have hpl : p.length + 1 ≤ r.length := by omega
      have hf : r.length ≤ f := by omega
      calc version_satisfies_fuel f v p
          = version_satisfies v p := ih f (by omega) v p (by omega)
        _ = version_satisfies_fuel r.length v p := (ih r.length (by omega) v p (by omega)).symm

/-- Splitting on an absent separator returns the whole list. -/
theorem splitChar_of_not_mem {c : Char} : ∀ {l : List Char}, c ∉ l →
    splitChar c l = [l] := by
  intro l
  induction l with
  | nil => intro _; rfl
  | cons a t ih =>
    intro h
    have hac : ¬ a = c := fun he => h (he ▸ List.mem_cons_self _ _)
    have ht : c ∉ t := fun hm => h (List.mem_cons_of_mem _ hm)
    simp [splitChar, ih ht, hac]

/-- Splitting at the first separator occurrence peels off the prefix. -/
theorem splitChar_sep {c : Char} : ∀ {l1 l2 : List Char}, c ∉ l1 →
    splitChar c (l1 ++ c :: l2) = l1 :: splitChar c l2 := by
  intro l1
  induction l1 with
  | nil =>
    intro l2 _
    obtain ⟨h0, rt, heq⟩ : ∃ h0 rt, splitChar c l2 = h0 :: rt := by
      cases hsp : splitChar c l2 with
      | nil => exact absurd hsp (splitChar_ne_nil c l2)
      | cons h0 rt => exact ⟨h0, rt, rfl⟩
    simp [splitChar, heq]
  | cons a t ih =>
    intro l2 h
    have hac : ¬ a = c := fun he => h (he ▸ List.mem_cons_self _ _)
    have ht : c ∉ t := fun hm => h (List.mem_cons_of_mem _ hm)
    have h2 : splitChar c (t.append (c :: l2)) = t :: splitChar c l2 := ih ht
    simp only [List.cons_append, splitChar, h2, hac, if_false]

/-- A prefix test certifies an explicit decomposition. -/
theorem listStartsWith_decomp : ∀ {p l : List Char}, listStartsWith l p = true →
    ∃ t, l = p ++ t := by
  intro p
  induction p with
  | nil => intro l _; exact ⟨l, rfl⟩
  | cons b q ih =>
    intro l h
    cases l with
    | nil => simp [listStartsWith] at h
    | cons a t =>
      simp only [listStartsWith, Bool.and_eq_true, decide_eq_true_eq] at h
      obtain ⟨rest, hrest⟩ := ih h.2
      exact ⟨rest, by simp [h.1, hrest]⟩

/-- Trimming is the identity when both ends are not whitespace. -/
theorem trimList_id {l : List Char}
    (hhead : ∀ c, l.head? = some c → rustIsWhitespace c = false)
    (hlast : ∀ c, l.getLast? = some c → rustIsWhitespace c = false) :
    trimList l = l := by
  have hfront : l.dropWhile rustIsWhitespace = l := by
    cases l with
    | nil => rfl
    | cons a t => simp [List.dropWhile_cons, hhead a rfl]
  have hback : l.reverse.dropWhile rustIsWhitespace = l.reverse := by
    cases hrev : l.reverse with
    | nil => rfl
    | cons b rt =>
      have hb : l.getLast? = some b := by
        rw [← List.head?_reverse, hrev]
        rfl
      simp [List.dropWhile_cons, hlast b hb]
  unfold trimList
  rw [hfront, hback, List.reverse_reverse]

/-- C3 amended: the Conflict Resolver range predicate implements the
wildcard and empty range, caret (a 0.x caret pinning the minor), tilde,
greater-or-equal, a less-than form in which any equals signs after the
comparator are stripped and the bound stays strict (so a less-or-equal
range behaves as strict less-than), space-separated AND over the parts,
and exact triple matching for every other atomic range — including ranges
using strict greater-than or OR bars, which are not recognized and fall
through to exact matching of whatever components still parse; the
predicate returns a plain boolean, so nothing is reported as unresolved. -/
theorem version_satisfies_forms :
    (∀ v, version_satisfies v "*" = true)
    ∧ (∀ v, version_satisfies v "" = true)
    ∧ (∀ v t, strim ("^" ++ t) = "^" ++ t → scontains ("^" ++ t) " " = false →
        version_satisfies v ("^" ++ t)
          = (if (parse_ver t).1 = 0 then
              (parse_ver v).1 = 0 && (parse_ver v).2.1 = (parse_ver t).2.1
                && (parse_ver v).2.2 ≥ (parse_ver t).2.2
            else
              (parse_ver v).1 = (parse_ver t).1
                && ((parse_ver v).2.1 > (parse_ver t).2.1
                  || ((parse_ver v).2.1 = (parse_ver t).2.1
                    && (parse_ver v).2.2 ≥ (parse_ver t).2.2))))
    ∧ (∀ v t, strim ("~" ++ t) = "~" ++ t → scontains ("~" ++ t) " " = false →
        version_satisfies v ("~" ++ t)
          = ((parse_ver v).1 = (parse_ver t).1
              && (parse_ver v).2.1 = (parse_ver t).2.1
              && (parse_ver v).2.2 ≥ (parse_ver t).2.2))
    ∧ (∀ v t, strim (">=" ++ t) = ">=" ++ t → scontains (">=" ++ t) " " = false →
        version_satisfies v (">=" ++ t)
          = ((parse_ver v).1 > (parse_ver t).1
              || ((parse_ver v).1 = (parse_ver t).1
                && (parse_ver v).2.1 > (parse_ver t).2.1)
              || ((parse_ver v).1 = (parse_ver t).1
                && (parse_ver v).2.1 = (parse_ver t).2.1
                && (parse_ver v).2.2 ≥ (parse_ver t).2.2)))
    ∧ (∀ v t, strim ("<" ++ t) = "<" ++ t → scontains ("<" ++ t) " " = false →
        version_satisfies v ("<" ++ t)
          = ((parse_ver v).1 < (parse_ver (String.mk (trimStartMatchesChar '=' t.data))).1
              || ((parse_ver v).1 = (parse_ver (String.mk (trimStartMatchesChar '=' t.data))).1
                && (parse_ver v).2.1
                  < (parse_ver (String.mk (trimStartMatchesChar '=' t.data))).2.1)
              || ((parse_ver v).1 = (parse_ver (String.mk (trimStartMatchesChar '=' t.data))).1
                && (parse_ver v).2.1
                  = (parse_ver (String.mk (trimStartMatchesChar '=' t.data))).2.1
                && (parse_ver v).2.2
                  < (parse_ver (String.mk (trimStartMatchesChar '=' t.data))).2.2)))
    ∧ (∀ v r1 r2, r1 ≠ "" → r2 ≠ "" →
        (∀ c ∈ r1.data, rustIsWhitespace c = false) →
        (∀ c ∈ r2.data, rustIsWhitespace c = false) →
        version_satisfies v (r1 ++ " " ++ r2)
          = (version_satisfies v r1 && version_satisfies v r2))
    ∧ (∀ v r, strim r = r → scontains r " " = false → r ≠ "*" → r ≠ "" →
        sstarts r "^" = false → sstarts r "~" = false → sstarts r ">=" = false →
        sstarts r "<" = false →
        version_satisfies v r
          = ((parse_ver v).1 = (parse_ver r).1
              && (parse_ver v).2.1 = (parse_ver r).2.1
              && (parse_ver v).2.2 = (parse_ver r).2.2)) := by
  refine ⟨fun v => rfl, fun v => rfl, ?_, ?_, ?_, ?_, ?_, ?_⟩
  · intro v t htrim hnsp
    have hstar : ("^" ++ t : String) ≠ "*" := by
      intro h
      have := congrArg String.data h
      simp at this
    show version_satisfies_fuel (("^" ++ t).length + 1) v ("^" ++ t) = _
    simp only [version_satisfies_fuel, htrim]
    simp [hstar, sisEmpty, hnsp, stripOncePre, sstarts, listStartsWith]
  · intro v t htrim hnsp
    have hstar : ("~" ++ t : String) ≠ "*" := by
      intro h
      have := congrArg String.data h
      simp at this
    show version_satisfies_fuel (("~" ++ t).length + 1) v ("~" ++ t) = _
    simp only [version_satisfies_fuel, htrim]
    simp [hstar, sisEmpty, hnsp, stripOncePre, sstarts, listStartsWith]
  · intro v t htrim hnsp
    have hstar : (">=" ++ t : String) ≠ "*" := by
      intro h
      have := congrArg String.data h
      simp at this
    show version_satisfies_fuel ((">=" ++ t).length + 1) v (">=" ++ t) = _
    simp only [version_satisfies_fuel, htrim]
    simp [hstar, sisEmpty, hnsp, stripOncePre, sstarts, listStartsWith]
  · intro v t htrim hnsp
    have hstar : ("<" ++ t : String) ≠ "*" := by
      intro h
      have := congrArg String.data h
      simp at this
    show version_satisfies_fuel (("<" ++ t).length + 1) v ("<" ++ t) = _
    simp only [version_satisfies_fuel, htrim]
    simp [hstar, sisEmpty, hnsp, stripOncePre, sstarts, listStartsWith]
  · intro v r1 r2 h1 h2 hw1 hw2
    have hd : (r1 ++ " " ++ r2).data = r1.data ++ ' ' :: r2.data := by
      show (r1.data ++ [' ']) ++ r2.data = _
      simp
    have hd1 : r1.data ≠ [] := by
      intro h
      apply h1
      cases r1
      simp_all
    have hd2 : r2.data ≠ [] := by
      intro h
      apply h2
      cases r2
      simp_all
    have hnm1 : (' ' : Char) ∉ r1.data := by
      intro hm
      have := hw1 ' ' hm
      simp [rustIsWhitespace] at this
    have hnm2 : (' ' : Char) ∉ r2.data := by
      intro hm
      have := hw2 ' ' hm
      simp [rustIsWhitespace] at this
    have hh : ∀ c, (r1.data ++ ' ' :: r2.data).head? = some c →
        rustIsWhitespace c = false := by
      intro c hc
      obtain ⟨a, tl, hr⟩ : ∃ a tl, r1.data = a :: tl := by
        cases hr : r1.data with
        | nil => exact absurd hr hd1
        | cons a tl => exact ⟨a, tl, rfl⟩
      rw [hr] at hc
      simp only [List.cons_append, List.head?_cons, Option.some.injEq] at hc
      rw [← hc]
      exact hw1 a (by rw [hr]; exact List.mem_cons_self _ _)
    have hl : ∀ c, (r1.data ++ ' ' :: r2.data).getLast? = some c →
        rustIsWhitespace c = false := by
      intro c hc
      rw [List.getLast?_append_cons,
        show (' ' :: r2.data) = [' '] ++ r2.data from rfl,
        List.getLast?_append_of_ne_nil _ hd2,
        List.getLast?_eq_getLast_of_ne_nil hd2] at hc
      have hcc : c = r2.data.getLast hd2 := by
        simpa using hc.symm
      rw [hcc]
      exact hw2 _ (List.getLast_mem hd2)
    have htrim : strim (r1 ++ " " ++ r2) = r1 ++ " " ++ r2 := by
      show String.mk (trimList (r1 ++ " " ++ r2).data) = _
      rw [hd, trimList_id hh hl, ← hd]
    have hsp : scontains (r1 ++ " " ++ r2) " " = true := by
      show containsSub (r1 ++ " " ++ r2).data [' '] = true
      rw [hd]
      exact containsSub_single_of_mem
        (List.mem_append_right _ (List.mem_cons_self _ _))
    have hstar : (r1 ++ " " ++ r2 : String) ≠ "*" := by
      intro h
      have hdd := congrArg String.data h
      rw [hd] at hdd
      have hm : (' ' : Char) ∈ ("*" : String).data := by
        rw [← hdd]
        exact List.mem_append_right _ (List.mem_cons_self _ _)
      simp at hm
    have hemp : sisEmpty (r1 ++ " " ++ r2) = false := by
      simp [sisEmpty, hd]
    have hsplit : ssplitWhitespace (r1 ++ " " ++ r2) = [r1, r2] := by
      unfold ssplitWhitespace splitWhitespaceList
      rw [hd]
      have hmap : (r1.data ++ ' ' :: r2.data).map
          (fun c => if rustIsWhitespace c then ' ' else c)
          = r1.data ++ ' ' :: r2.data := by
        rw [List.map_append]
        congr 1
        · calc r1.data.map (fun c => if rustIsWhitespace c then ' ' else c)
              = r1.data.map id := by
                apply List.map_congr_left
                intro a ha
                simp [hw1 a ha]
            _ = r1.data := List.map_id _
        · show (if rustIsWhitespace ' ' then ' ' else ' ') :: _ = _
          congr 1
          · calc r2.data.map (fun c => if rustIsWhitespace c then ' ' else c)
                = r2.data.map id := by
                  apply List.map_congr_left
                  intro a ha
                  simp [hw2 a ha]
              _ = r2.data := List.map_id _
      rw [hmap, splitChar_sep hnm1, splitChar_of_not_mem hnm2]
      simp [hd1, hd2]
    have hsl : (" " : String).length = 1 := rfl
    have e1 := vsf_fuel (r1.length + " ".length + r2.length) v r1 (by omega)
    have e2 := vsf_fuel (r1.length + " ".length + r2.length) v r2 (by omega)
    show version_satisfies_fuel ((r1 ++ " " ++ r2).length + 1) v (r1 ++ " " ++ r2) = _
    simp only [version_satisfies_fuel, htrim]
    simp [hstar, hemp, hsp, hsplit, e1, e2]
  · intro v r htrim hnsp hstar hemp hc1 hc2 hc3 hc4
    have hemp' : sisEmpty r = false := by
      have hdn : r.data ≠ [] := by
        intro h
        apply hemp
        cases r with
        | mk data =>
          change data = [] at h
          subst h
          rfl
      simp [sisEmpty, hdn]
    show version_satisfies_fuel (r.length + 1) v r = _
    simp only [version_satisfies_fuel, htrim]
    simp [hstar, hemp', hnsp, stripOncePre, hc1, hc2, hc3, hc4]

/-- C3 amended witness: the space-AND conjunct at the documented range pair
splits into the conjunction of its parts. -/
theorem version_satisfies_forms_witness :
    version_satisfies "18.3.1" (">=18.0" ++ " " ++ "<19.0.0")
      = (version_satisfies "18.3.1" ">=18.0" && version_satisfies "18.3.1" "<19.0.0") :=
  version_satisfies_forms.2.2.2.2.2.2.1 "18.3.1" ">=18.0" "<19.0.0"
    (by decide) (by decide) (by decide) (by decide)

/-- Char codepoints determine the char. -/
theorem charToNatInj {a b : Char} (h : a.toNat = b.toNat) : a = b :=
  Char.eq_of_val_eq (UInt32.ext h)

/-- Equal data lists give equal strings. -/
theorem strDataInj : ∀ {a b : String}, a.data = b.data → a = b := by
  intro a b h
  cases a with
  | mk d1 =>
    cases b with
    | mk d2 =>
      change d1 = d2 at h
      rw [h]

/-- The codepoint order is asymmetric. -/
theorem charListLt_asymm : ∀ {A B : List Char},
    charListLt A B = true → charListLt B A = false := by
  intro A
  induction A with
  | nil =>
    intro B h
    cases B with
    | nil => simp [charListLt] at h
    | cons y t => rfl
  | cons x XS ih =>
    intro B h
    cases B with
    | nil => simp [charListLt] at h
    | cons y YS =>
      simp only [charListLt] at h ⊢
      by_cases h1 : x.toNat < y.toNat
      · have h2 : ¬ y.toNat < x.toNat := by omega
        simp [h1, h2]
      · by_cases h2 : y.toNat < x.toNat
        · simp [h1, h2] at h
        · simp only [if_neg h1, if_neg h2] at h ⊢
          exact ih h

/-- Codepoint incomparability is equality. -/
theorem charListLt_eq : ∀ {A B : List Char},
    charListLt A B = false → charListLt B A = false → A = B := by
  intro A
  induction A with
  | nil =>
    intro B hab _
    cases B with
    | nil => rfl
    | cons y t => simp [charListLt] at hab
  | cons x XS ih =>
    intro B hab hba
    cases B with
    | nil => simp [charListLt] at hba
    | cons y YS =>
      simp only [charListLt] at hab hba
      by_cases h1 : x.toNat < y.toNat
      · simp [h1] at hab
      · by_cases h2 : y.toNat < x.toNat
        · simp [h1, h2] at hab hba
        · simp only [if_neg h1, if_neg h2] at hab
          simp only [if_neg h2, if_neg h1] at hba
          have hx : x = y := charToNatInj (by omega)
          rw [hx, ih hab hba]

/-- The codepoint order is transitive. -/
theorem charListLt_trans : ∀ (A : List Char) {B C : List Char},
    charListLt A B = true → charListLt B C = true → charListLt A C = true := by
  intro A
  induction A with
  | nil =>
    intro B C hab hbc
    cases C with
    | nil =>
      cases B with
      | nil => simp [charListLt] at hab
      | cons y t => simp [charListLt] at hbc
    | cons z t => rfl
  | cons x XS ih =>
    intro B C hab hbc
    cases B with
    | nil => simp [charListLt] at hab
    | cons y YS =>
      cases C with
      | nil => simp [charListLt] at hbc
      | cons z ZS =>
        simp only [charListLt] at hab hbc ⊢
        by_cases h1 : x.toNat < y.toNat
        · by_cases h3 : y.toNat < z.toNat
          · have : x.toNat < z.toNat := by omega
            simp [this]
          · by_cases h4 : z.toNat < y.toNat
            · simp [h3, h4] at hbc
            · have : x.toNat < z.toNat := by omega
              simp [this]
        · by_cases h2 : y.toNat < x.toNat
          · simp [h1, h2] at hab
          · by_cases h3 : y.toNat < z.toNat
            · have : x.toNat < z.toNat := by omega
              simp [this]
            · by_cases h4 : z.toNat < y.toNat
              · simp [h3, h4] at hbc
              · have h5 : ¬ x.toNat < z.toNat := by omega
                have h6 : ¬ z.toNat < x.toNat := by omega
                simp only [if_neg h1, if_neg h2] at hab
                simp only [if_neg h3, if_neg h4] at hbc
                simp only [if_neg h5, if_neg h6]
                exact ih hab hbc

/-- Totality of the string order. -/
instance : IsTotal String strOrder := by
  constructor
  intro a b
  cases hx : charListLt b.data a.data with
  | false => exact Or.inl hx
  | true => exact Or.inr (charListLt_asymm hx)

/-- Transitivity of the string order. -/
instance : IsTrans String strOrder := by
  constructor
  intro a b c hab hbc
  show charListLt c.data a.data = false
  cases hv : charListLt a.data b.data with
  | true =>
    cases hca : charListLt c.data a.data with
    | false => rfl
    | true =>
      have : charListLt c.data b.data = true := charListLt_trans c.data hca hv
      rw [hbc] at this
      cases this
  | false =>
    have he : a.data = b.data := charListLt_eq hv hab
    rw [he]
    exact hbc

/-- Antisymmetry of the string order. -/
instance : IsAntisymm String strOrder := by
  constructor
  intro a b h1 h2
  exact strDataInj (charListLt_eq h2 h1)

/-- String concatenation concatenates the data. -/
theorem sdata_append (a b : String) : (a ++ b).data = a.data ++ b.data := by
  cases a
  cases b
  rfl

/-- A newline-terminated token decomposition is unique when tokens are
newline-free. -/
theorem tok_sep_inj : ∀ {t1 t2 r1 r2 : List Char},
    ('\n' : Char) ∉ t1 → ('\n' : Char) ∉ t2 →
    t1 ++ '\n' :: r1 = t2 ++ '\n' :: r2 → t1 = t2 ∧ r1 = r2 := by
  intro t1
  induction t1 with
  | nil =>
    intro t2 r1 r2 _ h2 heq
    cases t2 with
    | nil =>
      simp only [List.nil_append, List.cons.injEq] at heq
      exact ⟨rfl, heq.2⟩
    | cons b q =>
      simp only [List.nil_append, List.cons_append, List.cons.injEq] at heq
      exact absurd (heq.1 ▸ List.mem_cons_self _ _) h2
  | cons a s ih =>
    intro t2 r1 r2 h1 h2 heq
    cases t2 with
    | nil =>
      simp only [List.cons_append, List.nil_append, List.cons.injEq] at heq
      exact absurd (heq.1 ▸ List.mem_cons_self _ _) h1
    | cons b q =>
      simp only [List.cons_append, List.cons.injEq] at heq
      have hs := ih (fun hm => h1 (List.mem_cons_of_mem _ hm))
        (fun hm => h2 (List.mem_cons_of_mem _ hm)) heq.2
      exact ⟨by rw [heq.1, hs.1], hs.2⟩

/-- Joining newline-terminated newline-free tokens is injective. -/
theorem joinTok_inj : ∀ {L1 L2 : List (List Char)},
    (∀ t ∈ L1, ('\n' : Char) ∉ t) → (∀ t ∈ L2, ('\n' : Char) ∉ t) →
    L1.flatMap (fun t => t ++ ['\n']) = L2.flatMap (fun t => t ++ ['\n']) →
    L1 = L2 := by
  intro L1
  induction L1 with
  | nil =>
    intro L2 _ _ heq
    cases L2 with
    | nil => rfl
    | cons t q =>
      have := congrArg List.length heq
      simp at this
      exact absurd this (by omega)
  | cons t q ih =>
    intro L2 h1 h2 heq
    cases L2 with
    | nil =>
      have := congrArg List.length heq
      simp at this
    | cons t2 q2 =>
      simp only [List.flatMap_cons, List.append_assoc, List.singleton_append] at heq
      have hsep := tok_sep_inj (h1 t (List.mem_cons_self _ _))
        (h2 t2 (List.mem_cons_self _ _)) heq
      rw [hsep.1, ih (fun u hu => h1 u (List.mem_cons_of_mem _ hu))
        (fun u hu => h2 u (List.mem_cons_of_mem _ hu)) hsep.2]

/-- Data of a fold of string concatenations. -/
theorem foldl_append_data : ∀ (M : List String) (acc : String),
    (M.foldl (fun r s => r ++ s) acc).data = acc.data ++ M.flatMap String.data := by
  intro M
  induction M with
  | nil => intro acc; simp
  | cons s M ih =>
    intro acc
    simp only [List.foldl_cons, List.flatMap_cons, ih, sdata_append, List.append_assoc]

/-- Data of the joined newline-terminated token list. -/
theorem joinMapData (L : List String) :
    (String.join (L.map (fun p => p ++ "\n"))).data
      = (L.map String.data).flatMap (fun t => t ++ ['\n']) := by
  show ((L.map (fun p => p ++ "\n")).foldl (fun r s => r ++ s) "").data = _
  rw [foldl_append_data]
  have : ("" : String).data = [] := rfl
  rw [this, List.nil_append, List.flatMap_map, List.flatMap_map]
  have hfn : (fun p : String => (p ++ "\n").data)
      = (fun p : String => p.data ++ ['\n']) := by
    funext p
    rw [sdata_append]
  rw [hfn]

/-- Equal data lists of strings give equal string lists. -/
theorem mapDataInj : ∀ {L1 L2 : List String},
    L1.map String.data = L2.map String.data → L1 = L2 := by
  intro L1
  induction L1 with
  | nil =>
    intro L2 h
    cases L2 with
    | nil => rfl
    | cons b q => simp at h
  | cons a p ih =>
    intro L2 h
    cases L2 with
    | nil => simp at h
    | cons b q =>
      simp only [List.map_cons, List.cons.injEq] at h
      rw [strDataInj h.1, ih h.2]

/-- C8 amended: over present `node_modules` listings with newline-free
tokens, the byte stream fed to the hasher (newline-joined lexicographically
sorted tokens) is equal exactly when the collected token multisets are
equal as multisets — so the hash is invariant under enumeration order of
the listings, idempotent over an unchanged package set, and unchanged
whenever the token multiset (top-level and pnpm-store tokens together) is
unchanged. -/
theorem node_modules_hash_stream_spec (fs1 fs2 : NodeModulesFs)
    (hp1 : fs1.present = true) (hp2 : fs2.present = true)
    (hn1 : ∀ t ∈ collectPackages fs1, ('\n' : Char) ∉ t.data)
    (hn2 : ∀ t ∈ collectPackages fs2, ('\n' : Char) ∉ t.data) :
    (nodeModulesHashStream fs1 = nodeModulesHashStream fs2 ↔
        (collectPackages fs1).Perm (collectPackages fs2))
    ∧ ((collectPackages fs1).Perm (collectPackages fs2) →
        compute_node_modules_hash fs1 = compute_node_modules_hash fs2) := by
  have hperm1 := List.perm_insertionSort strOrder (collectPackages fs1)
  have hperm2 := List.perm_insertionSort strOrder (collectPackages fs2)
  have hsort1 := List.sorted_insertionSort strOrder (collectPackages fs1)
  have hsort2 := List.sorted_insertionSort strOrder (collectPackages fs2)
  have stream_of_perm : (collectPackages fs1).Perm (collectPackages fs2) →
      nodeModulesHashStream fs1 = nodeModulesHashStream fs2 := by
    intro hperm
    have hsorted_eq : sortedPackages fs1 = sortedPackages fs2 :=
      List.eq_of_perm_of_sorted (hperm1.trans (hperm.trans hperm2.symm)) hsort1 hsort2
    by_cases hc1 : collectPackages fs1 = []
    · have hc2 : collectPackages fs2 = [] := by
        rw [hc1] at hperm
        exact hperm.symm.eq_nil
      simp [nodeModulesHashStream, hp1, hp2, hc1, hc2]
    · have hc2 : ¬ collectPackages fs2 = [] := by
        intro h
        apply hc1
        rw [h] at hperm
        exact hperm.eq_nil
      have hse : List.insertionSort strOrder (collectPackages fs1)
          = List.insertionSort strOrder (collectPackages fs2) := hsorted_eq
      simp [nodeModulesHashStream, hp1, hp2, hc1, hc2, sortedPackages, hse]
  refine ⟨⟨?_, stream_of_perm⟩, fun hpm => ?_⟩
  · intro heq
    simp only [nodeModulesHashStream, hp1, hp2, Bool.not_true] at heq
    by_cases hc1 : collectPackages fs1 = [] <;> by_cases hc2 : collectPackages fs2 = []
    · rw [hc1, hc2]
    · simp [hc1, hc2] at heq
    · simp [hc1, hc2] at heq
    · simp only [hc1, hc2, Bool.false_eq_true, if_false, Option.some.injEq] at heq
      have hdata := congrArg String.data heq
      rw [joinMapData, joinMapData] at hdata
      have hnl1 : ∀ t ∈ (List.insertionSort strOrder (collectPackages fs1)).map
          String.data, ('\n' : Char) ∉ t := by
        intro t ht
        obtain ⟨p, hp, hpt⟩ := List.mem_map.mp ht
        rw [← hpt]
        exact hn1 p (hperm1.subset hp)
      have hnl2 : ∀ t ∈ (List.insertionSort strOrder (collectPackages fs2)).map
          String.data, ('\n' : Char) ∉ t := by
        intro t ht
        obtain ⟨p, hp, hpt⟩ := List.mem_map.mp ht
        rw [← hpt]
        exact hn2 p (hperm2.subset hp)
      have hmaps := joinTok_inj hnl1 hnl2 hdata
      have hse : List.insertionSort strOrder (collectPackages fs1)
          = List.insertionSort strOrder (collectPackages fs2) := mapDataInj hmaps
      have hp2x : (List.insertionSort strOrder (collectPackages fs1)).Perm
          (collectPackages fs2) := by
        rw [hse]
        exact hperm2
      exact hperm1.symm.trans hp2x
  · show (nodeModulesHashStream fs1).map _ = (nodeModulesHashStream fs2).map _
    rw [stream_of_perm hpm]

/-- C8 amended witness: reversing the enumeration order of two top-level
packages permutes the collected tokens and leaves the hash unchanged. -/
theorem node_modules_hash_stream_spec_witness :
    (collectPackages ⟨true, [⟨"a", [], some "1"⟩, ⟨"b", [], some "2"⟩], false, []⟩).Perm
        (collectPackages ⟨true, [⟨"b", [], some "2"⟩, ⟨"a", [], some "1"⟩], false, []⟩)
    ∧ compute_node_modules_hash
        ⟨true, [⟨"a", [], some "1"⟩, ⟨"b", [], some "2"⟩], false, []⟩
      = compute_node_modules_hash
        ⟨true, [⟨"b", [], some "2"⟩, ⟨"a", [], some "1"⟩], false, []⟩ :=
  ⟨by decide,
   (node_modules_hash_stream_spec
      ⟨true, [⟨"a", [], some "1"⟩, ⟨"b", [], some "2"⟩], false, []⟩
      ⟨true, [⟨"b", [], some "2"⟩, ⟨"a", [], some "1"⟩], false, []⟩
      rfl rfl (by decide) (by decide)).2 (by decide)⟩

set_option maxRecDepth 1000000 in
/-- C8 counterexample: the hash also covers pnpm-store entries, so changing
a store package version from b@1 to b@2 changes the hash although the
top-level tokens (a single package a@1) are unchanged — the hash does not
change only on top-level token changes. -/
theorem node_modules_hash_store_only_change :
    topLevelTokens [⟨"a", [], some "1"⟩] = topLevelTokens [⟨"a", [], some "1"⟩]
    ∧ compute_node_modules_hash ⟨true, [⟨"a", [], some "1"⟩], true, ["b@1"]⟩
      ≠ compute_node_modules_hash ⟨true, [⟨"a", [], some "1"⟩], true, ["b@2"]⟩ :=
  ⟨rfl, by decide⟩
